import Mathlib

/-!
Verification development for the StreamPay per-second payment-streaming
protocol (contracts/StreamPay.sol) and its off-chain keeper bot
(scripts/keeper-bot-somnia-testnet.js).

The contract is shallowly embedded: EVM uint256 values become Nat (the
quantities involved — wei amounts, second timestamps — are far below 2^256,
and the contract's Solidity 0.8 checked arithmetic reverts rather than
wraps, so no modular reduction arises on any reachable path); addresses
become Nat (address(0) is 0); a revert becomes an Except error carrying no
state, so "no state change on failure" is structural.  Each mutating entry
point additionally reports, per stream id, the value it transfers out of
the contract (keeper fee to the caller, payout to the recipient, refund to
the sender) — a ghost accumulator used to state fee/conservation claims,
not contract storage.
-/

namespace StreamPay

/-- Named failure conditions, one per require-message of StreamPay.sol. -/
inductive Err where
  | contractPaused
  | amountZero
  | invalidRecipient
  | selfStream
  | durationZero
  | durationTooLong
  | emptyStreamType
  | amountTooSmall
  | flowRateZero
  | batchTooLarge
  | tooFrequent
  | notActive
  | notRecipient
  | noFunds
  | unauthorized
  | noRecipients
  | tooManyRecipients
  | notDivisible
  | perRecipientTooSmall
deriving DecidableEq, Repr

/-- The Stream struct of StreamPay.sol, field for field. -/
structure Stream where
  sender : Nat
  recipient : Nat
  totalAmount : Nat
  flowRate : Nat
  startTime : Nat
  lastUpdateTime : Nat
  stopTime : Nat
  amountWithdrawn : Nat
  realTimeBalance : Nat
  isActive : Bool
  streamType : String
  descr : String
deriving DecidableEq, Repr

/-- The default value of an EVM storage slot of type Stream (all zero). -/
def defaultStream : Stream :=
  { sender := 0, recipient := 0, totalAmount := 0, flowRate := 0, startTime := 0
    lastUpdateTime := 0, stopTime := 0, amountWithdrawn := 0, realTimeBalance := 0
    isActive := false, streamType := "", descr := "" }

/-- Contract storage of StreamPay.sol.  Mappings are total functions with the
EVM zero-default; `paused` is the OpenZeppelin Pausable flag. -/
structure ContractState where
  streams : Nat → Stream
  userStreams : Nat → List Nat
  recipientStreams : Nat → List Nat
  activeStreamIds : List Nat
  activeStreamIndex : Nat → Nat
  nextStreamId : Nat
  totalStreamsCreated : Nat
  totalUpdatesPerformed : Nat
  totalVolumeStreamed : Nat
  lastBatchUpdateTime : Nat
  activeStreamCount : Nat
  paused : Bool

def MAX_BATCH_SIZE : Nat := 200

def MIN_UPDATE_INTERVAL : Nat := 1

/-- Solidity `365 days` in seconds. -/
def MAX_STREAM_SECONDS : Nat := 31536000

/-- Storage immediately after the constructor ran. -/
def genesis : ContractState :=
  { streams := fun _ => defaultStream
    userStreams := fun _ => []
    recipientStreams := fun _ => []
    activeStreamIds := []
    activeStreamIndex := fun _ => 0
    nextStreamId := 1
    totalStreamsCreated := 0
    totalUpdatesPerformed := 0
    totalVolumeStreamed := 0
    lastBatchUpdateTime := 0
    activeStreamCount := 0
    paused := false }

/-- The function _deactivateStream: flips isActive off and removes the id from
the active array by swap-with-last, updating the back-reference index map.
The Solidity order of assignments (index map entry for the swapped-in last
element written before the removed id's entry is deleted) is reflected by
testing `j = streamId` first.  The in-bounds array write is rendered with
List.set, which is exact on every state where the index invariant proved
below holds. -/
def deactivateStream (streamId : Nat) (st : ContractState) : ContractState :=
  let s := st.streams streamId
  if s.isActive = false ∨ st.activeStreamIds.length = 0 then st
  else
    let index := st.activeStreamIndex streamId
    let lastStreamId := st.activeStreamIds.getD (st.activeStreamIds.length - 1) 0
    { st with
      streams := fun j => if j = streamId then { s with isActive := false } else st.streams j
      activeStreamCount := st.activeStreamCount - 1
      activeStreamIds := (st.activeStreamIds.set index lastStreamId).dropLast
      activeStreamIndex := fun j =>
        if j = streamId then 0
        else if j = lastStreamId then index
        else st.activeStreamIndex j }

/-- The function _updateStreamBalance at timestamp `now`.  Returns the new
storage, the `success` flag, and the keeper reward paid to the caller (0 when
the no-fee branch adds the full amount).  The reward transfer is assumed to
succeed (a failing transfer reverts the whole call in the source). -/
def updateStreamBalance (streamId now : Nat) (st : ContractState) :
    ContractState × Bool × Nat :=
  let s := st.streams streamId
  if s.isActive = false ∨ now ≤ s.lastUpdateTime then (st, false, 0)
  else
    let timeElapsed := now - s.lastUpdateTime
    let maxTimeElapsed := if s.stopTime > s.lastUpdateTime then s.stopTime - s.lastUpdateTime else 0
    if maxTimeElapsed = 0 then (deactivateStream streamId st, false, 0)
    else
      let effectiveTimeElapsed := if timeElapsed > maxTimeElapsed then maxTimeElapsed else timeElapsed
      let newAmount := effectiveTimeElapsed * s.flowRate
      let keeperReward := newAmount * 1 / 1000
      let credited := if 0 < keeperReward ∧ keeperReward < newAmount
        then newAmount - keeperReward else newAmount
      let fee := if 0 < keeperReward ∧ keeperReward < newAmount then keeperReward else 0
      let s1 := { s with realTimeBalance := s.realTimeBalance + credited, lastUpdateTime := now }
      let st1 := { st with streams := fun j => if j = streamId then s1 else st.streams j }
      let st2 := if s.stopTime ≤ now then deactivateStream streamId st1 else st1
      (st2, true, fee)

/-- The view function _getCurrentBalance at timestamp `now` (read-only; the
model is a pure function, so absence of mutation is structural). -/
def getCurrentBalance (streamId now : Nat) (st : ContractState) : Nat :=
  let s := st.streams streamId
  if s.isActive = false then 0
  else
    let currentTime := if s.stopTime < now then s.stopTime else now
    if currentTime ≤ s.lastUpdateTime then s.realTimeBalance - s.amountWithdrawn
    else
      let timeElapsed := currentTime - s.lastUpdateTime
      let additionalAmount := timeElapsed * s.flowRate
      let totalBalance := s.realTimeBalance + additionalAmount
      if s.amountWithdrawn < totalBalance then totalBalance - s.amountWithdrawn else 0

/-- The function _createStreamInternal: assigns the next id, stores the new
stream, appends it to the active array and both per-party lists, and bumps the
global counters. -/
def createStreamInternal (sender recipient amount duration now : Nat)
    (streamType description : String) (st : ContractState) :
    Except Err (ContractState × Nat) :=
  let flowRate := amount / duration
  if flowRate = 0 then .error .flowRateZero
  else
    let streamId := st.nextStreamId
    let startTime := now
    let stopTime := startTime + duration
    let s : Stream :=
      { sender := sender, recipient := recipient, totalAmount := amount, flowRate := flowRate
        startTime := startTime, lastUpdateTime := startTime, stopTime := stopTime
        amountWithdrawn := 0, realTimeBalance := 0, isActive := true
        streamType := streamType, descr := description }
    .ok
      ({ st with
          streams := fun j => if j = streamId then s else st.streams j
          nextStreamId := st.nextStreamId + 1
          activeStreamIds := st.activeStreamIds ++ [streamId]
          activeStreamIndex := fun j =>
            if j = streamId then st.activeStreamIds.length else st.activeStreamIndex j
          userStreams := fun u =>
            if u = sender then st.userStreams u ++ [streamId] else st.userStreams u
          recipientStreams := fun u =>
            if u = recipient then st.recipientStreams u ++ [streamId] else st.recipientStreams u
          totalStreamsCreated := st.totalStreamsCreated + 1
          activeStreamCount := st.activeStreamCount + 1
          totalVolumeStreamed := st.totalVolumeStreamed + amount }, streamId)

/-- The external entry point createStream (payable: `value` is msg.value,
`sender` is msg.sender), with its require chain in source order. -/
def createStream (sender recipient duration value : Nat)
    (streamType description : String) (now : Nat) (st : ContractState) :
    Except Err (ContractState × Nat) :=
  if st.paused then .error .contractPaused
  else if value = 0 then .error .amountZero
  else if recipient = 0 then .error .invalidRecipient
  else if recipient = sender then .error .selfStream
  else if duration = 0 then .error .durationZero
  else if MAX_STREAM_SECONDS < duration then .error .durationTooLong
  else if streamType.length = 0 then .error .emptyStreamType
  else if value < duration then .error .amountTooSmall
  else createStreamInternal sender recipient value duration now streamType description st

/-- The per-recipient loop body of createGroupStream (the zero-address and
self-stream checks sit inside the source loop; a failure aborts the whole
call, which the Except threading reproduces). -/
def createGroupLoop (sender : Nat) (recipients : List Nat)
    (amountPer duration now : Nat) (streamType description : String)
    (st : ContractState) : Except Err ContractState :=
  match recipients with
  | [] => .ok st
  | r :: rest =>
    if r = 0 then .error .invalidRecipient
    else if r = sender then .error .selfStream
    else
      match createStreamInternal sender r amountPer duration now streamType description st with
      | .error e => .error e
      | .ok (st1, _) => createGroupLoop sender rest amountPer duration now streamType description st1

/-- The external entry point createGroupStream. -/
def createGroupStream (sender : Nat) (recipients : List Nat) (duration value : Nat)
    (streamType description : String) (now : Nat) (st : ContractState) :
    Except Err ContractState :=
  if st.paused then .error .contractPaused
  else if recipients.length = 0 then .error .noRecipients
  else if 50 < recipients.length then .error .tooManyRecipients
  else if value = 0 then .error .amountZero
  else if duration = 0 then .error .durationZero
  else if MAX_STREAM_SECONDS < duration then .error .durationTooLong
  else if streamType.length = 0 then .error .emptyStreamType
  else if value % recipients.length ≠ 0 then .error .notDivisible
  else
    let amountPerRecipient := value / recipients.length
    if amountPerRecipient < duration then .error .perRecipientTooSmall
    else createGroupLoop sender recipients amountPerRecipient duration now streamType description st

/-- Per-stream record of value transferred out of the contract on a stream's
behalf: keeper fees, payments to the recipient (withdrawals and the
cancellation payout), and the cancellation refund to the sender.  Ghost
bookkeeping for the statements below, not contract storage. -/
structure Outflow where
  fee : Nat
  toRecipient : Nat
  toSender : Nat
deriving DecidableEq, Repr

def Outflow.zero : Outflow := { fee := 0, toRecipient := 0, toSender := 0 }

/-- The loop of batchUpdateStreams, threading the updated-stream count and the
ghost outflow map (each iteration's keeper reward is credited to the id that
produced it). -/
def batchLoop (ids : List Nat) (now : Nat) (st : ContractState) (count : Nat)
    (out : Nat → Outflow) : ContractState × Nat × (Nat → Outflow) :=
  match ids with
  | [] => (st, count, out)
  | streamId :: rest =>
    match updateStreamBalance streamId now st with
    | (st1, settled, fee) =>
      batchLoop rest now st1 (if settled then count + 1 else count)
        (fun j => if j = streamId then { out j with fee := (out j).fee + fee } else out j)

/-- The public entry point batchUpdateStreams: cap and rate-limit checks, then
the update loop, then `totalUpdatesPerformed` and `lastBatchUpdateTime`. -/
def batchUpdateStreams (ids : List Nat) (now : Nat) (st : ContractState)
    (out : Nat → Outflow) : Except Err (ContractState × Nat × (Nat → Outflow)) :=
  if st.paused then .error .contractPaused
  else if MAX_BATCH_SIZE < ids.length then .error .batchTooLarge
  else if now < st.lastBatchUpdateTime + MIN_UPDATE_INTERVAL then .error .tooFrequent
  else
    match batchLoop ids now st 0 out with
    | (st1, count, out1) =>
      .ok ({ st1 with
              totalUpdatesPerformed := st1.totalUpdatesPerformed + count
              lastBatchUpdateTime := now }, count, out1)

/-- The external entry point withdrawFromStream.  Returns the new storage, the
keeper fee the inner settlement paid to the caller, and the amount paid to the
recipient. -/
def withdrawFromStream (streamId caller now : Nat) (st : ContractState) :
    Except Err (ContractState × Nat × Nat) :=
  if st.paused then .error .contractPaused
  else
    let s := st.streams streamId
    if s.isActive = false then .error .notActive
    else if caller ≠ s.recipient then .error .notRecipient
    else
      match updateStreamBalance streamId now st with
      | (st1, _, fee) =>
        let s1 := st1.streams streamId
        let withdrawableAmount := s1.realTimeBalance - s1.amountWithdrawn
        if withdrawableAmount = 0 then .error .noFunds
        else
          .ok
            ({ st1 with
                streams := fun j =>
                  if j = streamId then
                    { s1 with amountWithdrawn := s1.amountWithdrawn + withdrawableAmount }
                  else st1.streams j }, fee, withdrawableAmount)

/-- The external entry point cancelStream.  Returns the new storage, the inner
settlement's keeper fee, the payout to the recipient, and the refund to the
sender. -/
def cancelStream (streamId caller now : Nat) (st : ContractState) :
    Except Err (ContractState × Nat × Nat × Nat) :=
  if st.paused then .error .contractPaused
  else
    let s := st.streams streamId
    if s.isActive = false then .error .notActive
    else if ¬ (caller = s.sender ∨ caller = s.recipient) then .error .unauthorized
    else
      match updateStreamBalance streamId now st with
      | (st1, _, fee) =>
        let s1 := st1.streams streamId
        let recipientBalance := s1.realTimeBalance - s1.amountWithdrawn
        let totalUsed := s1.amountWithdrawn + recipientBalance
        let senderRefund := if totalUsed < s1.totalAmount then s1.totalAmount - totalUsed else 0
        .ok (deactivateStream streamId st1, fee, recipientBalance, senderRefund)

/-- One ledger transaction, tagged with its block timestamp. -/
inductive Act where
  | create (sender recipient duration value : Nat) (streamType description : String) (now : Nat)
  | createGroup (sender : Nat) (recipients : List Nat) (duration value : Nat)
      (streamType description : String) (now : Nat)
  | batch (ids : List Nat) (now : Nat)
  | withdraw (streamId caller now : Nat)
  | cancel (streamId caller now : Nat)
  | pause
  | unpause

/-- Applies one transaction; a revert leaves storage and the outflow ledger
unchanged. -/
def step (a : Act) (p : ContractState × (Nat → Outflow)) : ContractState × (Nat → Outflow) :=
  match a with
  | .create sender recipient duration value ty d now =>
    match createStream sender recipient duration value ty d now p.1 with
    | .ok (st1, _) => (st1, p.2)
    | .error _ => p
  | .createGroup sender rs duration value ty d now =>
    match createGroupStream sender rs duration value ty d now p.1 with
    | .ok st1 => (st1, p.2)
    | .error _ => p
  | .batch ids now =>
    match batchUpdateStreams ids now p.1 p.2 with
    | .ok (st1, _, out1) => (st1, out1)
    | .error _ => p
  | .withdraw streamId caller now =>
    match withdrawFromStream streamId caller now p.1 with
    | .ok (st1, fee, paid) =>
      (st1, fun j =>
        if j = streamId then
          { fee := (p.2 j).fee + fee, toRecipient := (p.2 j).toRecipient + paid
            toSender := (p.2 j).toSender }
        else p.2 j)
    | .error _ => p
  | .cancel streamId caller now =>
    match cancelStream streamId caller now p.1 with
    | .ok (st1, fee, toR, toS) =>
      (st1, fun j =>
        if j = streamId then
          { fee := (p.2 j).fee + fee, toRecipient := (p.2 j).toRecipient + toR
            toSender := (p.2 j).toSender + toS }
        else p.2 j)
    | .error _ => p
  | .pause => ({ p.1 with paused := true }, p.2)
  | .unpause => ({ p.1 with paused := false }, p.2)

/-- Runs a transaction sequence from a given configuration. -/
def runFrom (acts : List Act) (p : ContractState × (Nat → Outflow)) :
    ContractState × (Nat → Outflow) :=
  acts.foldl (fun q a => step a q) p

/-- Runs a transaction sequence from the post-constructor state: the reachable
configurations of the ledger are exactly the values of `run`. -/
def run (acts : List Act) : ContractState × (Nat → Outflow) :=
  runFrom acts (genesis, fun _ => Outflow.zero)

/-! General facts about swap-with-last removal on lists, used for the
active-stream index. -/

theorem set_at_append_length (A C : List Nat) (x y : Nat) :
    (A ++ x :: C).set A.length y = A ++ y :: C := by
  induction A with
  | nil => simp
  | cons a as ih => simp [List.set, ih]

theorem getElem?_at_append_length (A C : List Nat) (x : Nat) :
    (A ++ x :: C)[A.length]? = some x := by
  rw [List.getElem?_append_right (Nat.le_refl _)]
  simp

theorem getD_eq_getElem? (l : List Nat) (i d : Nat) : l.getD i d = (l[i]?).getD d := by
  simp [List.getD]

/-- Behaviour of swap-with-last removal on a duplicate-free list: removing the
element `x` sitting at position `i` by overwriting it with the final element
and popping the tail yields the set minus `x`, keeps the list duplicate-free,
places the moved last element at position `i`, and leaves every other
element's position unchanged. -/
theorem swapPop_spec (l : List Nat) (i x : Nat) (hx : l[i]? = some x) (hnd : l.Nodup) :
    (∀ j, j ∈ (l.set i (l.getD (l.length - 1) 0)).dropLast ↔ (j ∈ l ∧ j ≠ x)) ∧
    ((l.set i (l.getD (l.length - 1) 0)).dropLast).Nodup ∧
    (x ≠ l.getD (l.length - 1) 0 →
      ((l.set i (l.getD (l.length - 1) 0)).dropLast)[i]? = some (l.getD (l.length - 1) 0)) ∧
    (∀ (j p : Nat), l[p]? = some j → j ≠ x → j ≠ l.getD (l.length - 1) 0 →
      ((l.set i (l.getD (l.length - 1) 0)).dropLast)[p]? = some j) := by
  have hi : i < l.length := by
    by_contra hc
    simp [List.getElem?_eq_none (Nat.le_of_not_lt hc)] at hx
  have hgx : l[i] = x := by
    have h1 := List.getElem?_eq_getElem hi
    rw [h1] at hx
    exact Option.some_injective _ hx
  have hA : (l.take i).length = i := by
    simp [List.length_take]
    omega
  have hsplit : l = l.take i ++ x :: l.drop (i + 1) := by
    conv_lhs => rw [(List.take_append_drop i l).symm]
    rw [List.drop_eq_getElem_cons hi, hgx]
  by_cases hDnil : l.drop (i + 1) = []
  · -- the removed element is the final element: the swap is the identity and
    -- the pop removes it
    have hsplit2 : l = l.take i ++ [x] := by
      conv_lhs => rw [hsplit]
      rw [hDnil]
    have hlen : l.length = i + 1 := by
      conv_lhs => rw [hsplit2]
      simp [hA]
    have hw : l.getD (l.length - 1) 0 = x := by
      rw [getD_eq_getElem?, hlen]
      simp [hx]
    have hset : l.set i x = l := by
      conv_lhs => rw [hsplit2]
      conv_rhs => rw [hsplit2]
      have h0 := set_at_append_length (l.take i) [] x x
      rw [hA] at h0
      exact h0
    have hdrop : l.dropLast = l.take i := by
      conv_lhs => rw [hsplit2]
      exact List.dropLast_concat
    have hxnotA : x ∉ l.take i := by
      have h0 := hnd
      rw [hsplit2] at h0
      simp [List.nodup_append] at h0
      exact fun hm => h0.2 hm
    rw [hw, hset, hdrop]
    refine ⟨?_, ?_, ?_, ?_⟩
    · intro j
      constructor
      · intro hj
        constructor
        · rw [hsplit2]
          simp [hj]
        · intro hjx; rw [hjx] at hj; exact hxnotA hj
      · intro hj
        obtain ⟨hj, hjx⟩ := hj
        rw [hsplit2] at hj
        simp at hj
        rcases hj with hj | hj
        · exact hj
        · exact absurd hj hjx
    · exact List.Nodup.sublist (List.take_sublist i l) hnd
    · intro hcontra; exact absurd rfl hcontra
    · intro j p hp hjx _
      have hplen : p < l.length := by
        by_contra hc
        simp [List.getElem?_eq_none (Nat.le_of_not_lt hc)] at hp
      have hpi : p ≠ i := by
        intro hcontra
        rw [hcontra, hx] at hp
        exact hjx (Option.some_injective _ hp).symm
      have hpl : p < i := by omega
      rw [List.getElem?_take]
      simp [hpl, hp]
  · -- the removed element is interior: the final element w moves to slot i
    set A := l.take i with hAdef
    set B := (l.drop (i + 1)).dropLast with hBdef
    set w := (l.drop (i + 1)).getLast hDnil with hwdef
    have hDBw : l.drop (i + 1) = B ++ [w] := (List.dropLast_append_getLast hDnil).symm
    have hsplit2 : l = A ++ x :: (B ++ [w]) := by
      conv_lhs => rw [hsplit]
      rw [hDBw]
    have hlen : l.length = i + B.length + 2 := by
      conv_lhs => rw [hsplit2]
      simp [hA]
      omega
    have hlast : l[i + B.length + 1]? = some w := by
      have h2 : l = (A ++ x :: B) ++ [w] := by
        conv_lhs => rw [hsplit2]
        simp
      have h3 : (A ++ x :: B).length = i + B.length + 1 := by
        simp [hA]
        omega
      have h4 := getElem?_at_append_length (A ++ x :: B) [] w
      rw [h3] at h4
      conv_lhs => rw [h2]
      simpa using h4
    have hw : l.getD (l.length - 1) 0 = w := by
      rw [getD_eq_getElem?, hlen]
      have h6 : i + B.length + 2 - 1 = i + B.length + 1 := by omega
      rw [h6, hlast]
      rfl
    have hset : l.set i w = A ++ w :: (B ++ [w]) := by
      conv_lhs => rw [hsplit2]
      have h0 := set_at_append_length A (B ++ [w]) x w
      rw [hA] at h0
      exact h0
    have hdrop : (A ++ w :: (B ++ [w])).dropLast = A ++ w :: B := by
      have h2 : A ++ w :: (B ++ [w]) = (A ++ w :: B) ++ [w] := by simp
      rw [h2]
      exact List.dropLast_concat
    have hperm1 : List.Perm l (x :: (A ++ (B ++ [w]))) := by
      conv_lhs => rw [hsplit2]
      exact List.perm_middle
    have hnd1 : (x :: (A ++ (B ++ [w]))).Nodup := hperm1.nodup_iff.mp hnd
    have hxnot : x ∉ A ++ (B ++ [w]) := (List.nodup_cons.mp hnd1).1
    have hnd2 : (A ++ (B ++ [w])).Nodup := (List.nodup_cons.mp hnd1).2
    have hperm2 : List.Perm (A ++ (B ++ [w])) (w :: (A ++ B)) := by
      have h0 : A ++ (B ++ [w]) = (A ++ B) ++ w :: [] := by simp
      rw [h0]
      simpa using
        (List.perm_middle : List.Perm ((A ++ B) ++ w :: []) (w :: ((A ++ B) ++ [])))
    have hnd3 : (w :: (A ++ B)).Nodup := hperm2.nodup_iff.mp hnd2
    have hperm3 : List.Perm (A ++ w :: B) (w :: (A ++ B)) := List.perm_middle
    have hxa : x ∉ A := fun hm => hxnot (by simp [hm])
    have hxb : x ∉ B := fun hm => hxnot (by simp [hm])
    have hxw : x ≠ w := fun he => hxnot (by simp [he])
    rw [hw, hset, hdrop]
    refine ⟨?_, ?_, ?_, ?_⟩
    · intro j
      rw [hperm3.mem_iff]
      constructor
      · intro hj
        simp at hj
        constructor
        · rw [hsplit2]
          rcases hj with hj | hj | hj <;> simp [hj]
        · intro hjx
          rw [hjx] at hj
          rcases hj with hj | hj | hj
          · exact hxw hj
          · exact hxa hj
          · exact hxb hj
      · intro hj
        obtain ⟨hj, hjx⟩ := hj
        rw [hsplit2] at hj
        simp at hj ⊢
        rcases hj with hj | hj | hj | hj
        · exact Or.inr (Or.inl hj)
        · exact absurd hj hjx
        · exact Or.inr (Or.inr hj)
        · exact Or.inl hj
    · exact hperm3.nodup_iff.mpr hnd3
    · intro _
      have h0 := getElem?_at_append_length A B w
      rw [hA] at h0
      exact h0
    · intro j p hp hjx hjw
      have hplen : p < l.length := by
        by_contra hc
        simp [List.getElem?_eq_none (Nat.le_of_not_lt hc)] at hp
      have hpi : p ≠ i := by
        intro hcontra
        rw [hcontra, hx] at hp
        exact hjx (Option.some_injective _ hp).symm
      have hplast : p ≠ i + B.length + 1 := by
        intro hcontra
        rw [hcontra, hlast] at hp
        exact hjw (Option.some_injective _ hp).symm
      rcases Nat.lt_or_ge p i with hpl | hpg
      · -- before the swap slot: untouched
        have h5 : l[p]? = A[p]? := by
          conv_lhs => rw [hsplit2]
          rw [List.getElem?_append]
          simp [hA, hpl]
        have h6 : (A ++ w :: B)[p]? = A[p]? := by
          rw [List.getElem?_append]
          simp [hA, hpl]
        rw [h6, ← h5, hp]
      · -- strictly between the swap slot and the final slot
        have hpgt : i < p := by omega
        have hpub : p < i + B.length + 2 := by omega
        have h5 : l[p]? = B[p - i - 1]? := by
          conv_lhs => rw [hsplit2]
          rw [List.getElem?_append]
          simp [hA, Nat.not_lt.mpr hpg]
          rw [List.getElem?_cons]
          have h7 : ¬ (p - i = 0) := by omega
          simp [h7]
          rw [List.getElem?_append]
          have h8 : p - i - 1 < B.length := by omega
          simp [h8]
        have h6 : (A ++ w :: B)[p]? = B[p - i - 1]? := by
          rw [List.getElem?_append]
          simp [hA, Nat.not_lt.mpr hpg]
          rw [List.getElem?_cons]
          have h7 : ¬ (p - i = 0) := by omega
          simp [h7]
        rw [h6, ← h5, hp]

/-! Ledger invariants.  `SInv` is the per-stream accounting invariant paired
with the stream's ghost outflow record; `ActInv` is the active-index
invariant; `LInv` is the full ledger invariant.  All three are established at
genesis and preserved by every transaction, so they hold at every reachable
state. -/

/-- Accounting invariant of one stream record together with its cumulative
outflow. -/
structure SInv (s : Stream) (o : Outflow) : Prop where
  wd_le : s.amountWithdrawn ≤ s.realTimeBalance
  start_le : s.startTime ≤ s.lastUpdateTime
  rate_le : s.flowRate * (s.stopTime - s.startTime) ≤ s.totalAmount
  rtb_le : s.realTimeBalance + s.flowRate * (s.stopTime - s.lastUpdateTime) ≤ s.totalAmount
  fee_le : 1000 * o.fee ≤ s.flowRate * (min s.lastUpdateTime s.stopTime - s.startTime)
  active_lt : s.isActive = true → s.lastUpdateTime < s.stopTime
  outflow_eq : s.isActive = true → o.toRecipient = s.amountWithdrawn ∧ o.toSender = 0

/-- Correctness of the active-stream index structure. -/
structure ActInv (st : ContractState) : Prop where
  mem_iff : ∀ id, id ∈ st.activeStreamIds ↔ (st.streams id).isActive = true
  nodup : st.activeStreamIds.Nodup
  pos : ∀ id, id ∈ st.activeStreamIds →
    st.activeStreamIds[st.activeStreamIndex id]? = some id
  lt_next : ∀ id, (st.streams id).isActive = true → id < st.nextStreamId

/-- The full ledger invariant. -/
structure LInv (st : ContractState) (out : Nat → Outflow) : Prop where
  act : ActInv st
  sinv : ∀ id, SInv (st.streams id) (out id)
  fresh : ∀ id, st.nextStreamId ≤ id → out id = Outflow.zero

theorem SInv_deactivated (s : Stream) (o : Outflow) (h : SInv s o) :
    SInv { s with isActive := false } o := by
  refine ⟨h.wd_le, h.start_le, h.rate_le, h.rtb_le, h.fee_le, ?_, ?_⟩ <;>
    intro hcontra <;> simp at hcontra

/-! Projection lemmas for deactivateStream. -/

theorem deactivateStream_eq_of_inactive (streamId : Nat) (st : ContractState)
    (h : (st.streams streamId).isActive = false ∨ st.activeStreamIds.length = 0) :
    deactivateStream streamId st = st := by
  unfold deactivateStream
  rw [if_pos h]

theorem deactivateStream_eq_of_active (streamId : Nat) (st : ContractState)
    (hg : ¬((st.streams streamId).isActive = false ∨ st.activeStreamIds.length = 0)) :
    deactivateStream streamId st =
      { st with
        streams := fun j => if j = streamId
          then { st.streams streamId with isActive := false } else st.streams j
        activeStreamCount := st.activeStreamCount - 1
        activeStreamIds := (st.activeStreamIds.set (st.activeStreamIndex streamId)
          (st.activeStreamIds.getD (st.activeStreamIds.length - 1) 0)).dropLast
        activeStreamIndex := fun j =>
          if j = streamId then 0
          else if j = st.activeStreamIds.getD (st.activeStreamIds.length - 1) 0
            then st.activeStreamIndex streamId
          else st.activeStreamIndex j } := by
  unfold deactivateStream
  rw [if_neg hg]

theorem deactivateStream_streams_ne (streamId j : Nat) (st : ContractState) (h : j ≠ streamId) :
    (deactivateStream streamId st).streams j = st.streams j := by
  by_cases hg : (st.streams streamId).isActive = false ∨ st.activeStreamIds.length = 0
  · rw [deactivateStream_eq_of_inactive streamId st hg]
  · rw [deactivateStream_eq_of_active streamId st hg]
    simp [h]

theorem deactivateStream_streams_cases (streamId : Nat) (st : ContractState) :
    (deactivateStream streamId st).streams streamId = st.streams streamId ∨
    (deactivateStream streamId st).streams streamId
      = { st.streams streamId with isActive := false } := by
  by_cases hg : (st.streams streamId).isActive = false ∨ st.activeStreamIds.length = 0
  · rw [deactivateStream_eq_of_inactive streamId st hg]
    exact Or.inl rfl
  · rw [deactivateStream_eq_of_active streamId st hg]
    right
    simp

theorem deactivateStream_scalars (streamId : Nat) (st : ContractState) :
    (deactivateStream streamId st).nextStreamId = st.nextStreamId ∧
    (deactivateStream streamId st).paused = st.paused ∧
    (deactivateStream streamId st).totalUpdatesPerformed = st.totalUpdatesPerformed ∧
    (deactivateStream streamId st).lastBatchUpdateTime = st.lastBatchUpdateTime := by
  by_cases hg : (st.streams streamId).isActive = false ∨ st.activeStreamIds.length = 0
  · rw [deactivateStream_eq_of_inactive streamId st hg]
    exact ⟨rfl, rfl, rfl, rfl⟩
  · rw [deactivateStream_eq_of_active streamId st hg]
    exact ⟨rfl, rfl, rfl, rfl⟩

theorem ActInv_deactivateStream (streamId : Nat) (st : ContractState) (h : ActInv st) :
    ActInv (deactivateStream streamId st) := by
  by_cases hg : (st.streams streamId).isActive = false ∨ st.activeStreamIds.length = 0
  · rw [deactivateStream_eq_of_inactive streamId st hg]
    exact h
  · have hact : (st.streams streamId).isActive = true := by
      rcases Bool.eq_false_or_eq_true (st.streams streamId).isActive with h1 | h1
      · exact h1
      · exact absurd (Or.inl h1) hg
    have hmem : streamId ∈ st.activeStreamIds := (h.mem_iff streamId).mpr hact
    have hposid := h.pos streamId hmem
    obtain ⟨hmem2, hnd2, hpos2, hkeep⟩ :=
      swapPop_spec st.activeStreamIds (st.activeStreamIndex streamId) streamId hposid h.nodup
    rw [deactivateStream_eq_of_active streamId st hg]
    refine ⟨?_, hnd2, ?_, ?_⟩
    · intro j
      rw [hmem2 j]
      by_cases hj : j = streamId
      · simp [hj]
      · simp only [hj, if_neg hj]
        constructor
        · intro hj2
          exact (h.mem_iff j).mp hj2.1
        · intro hj2
          exact ⟨(h.mem_iff j).mpr hj2, hj⟩
    · intro j hj
      have hjx : j ≠ streamId := ((hmem2 j).mp hj).2
      have hjl : j ∈ st.activeStreamIds := ((hmem2 j).mp hj).1
      by_cases hjw : j = st.activeStreamIds.getD (st.activeStreamIds.length - 1) 0
      · simp only [if_neg hjx, if_pos hjw]
        have hxw : streamId ≠ st.activeStreamIds.getD (st.activeStreamIds.length - 1) 0 := by
          rw [← hjw]
          exact fun he => hjx he.symm
        rw [hjw]
        exact hpos2 hxw
      · simp only [if_neg hjx, if_neg hjw]
        exact hkeep j (st.activeStreamIndex j) (h.pos j hjl) hjx hjw
    · intro j hj
      by_cases hjx : j = streamId
      · rw [hjx] at hj
        simp at hj
      · simp only [if_neg hjx] at hj
        exact h.lt_next j hj

/-! Characterization of _updateStreamBalance and preservation of the ledger
invariant by it. -/

/-- Amount a settlement at `now` accrues for stream `s` (derived quantity,
equal to the source's `effectiveTimeElapsed * flowRate` whenever
`lastUpdateTime < min now stopTime`). -/
def accrualAmount (s : Stream) (now : Nat) : Nat :=
  (min now s.stopTime - s.lastUpdateTime) * s.flowRate

/-- Keeper reward a settlement at `now` actually pays out of `accrualAmount`
(zero in the degenerate branch). -/
def accrualFee (s : Stream) (now : Nat) : Nat :=
  if 0 < accrualAmount s now / 1000 ∧ accrualAmount s now / 1000 < accrualAmount s now
  then accrualAmount s now / 1000 else 0

theorem updateStreamBalance_noop (streamId now : Nat) (st : ContractState)
    (h : (st.streams streamId).isActive = false ∨ now ≤ (st.streams streamId).lastUpdateTime) :
    updateStreamBalance streamId now st = (st, false, 0) := by
  unfold updateStreamBalance
  rw [if_pos h]

theorem updateStreamBalance_expired (streamId now : Nat) (st : ContractState)
    (hact : (st.streams streamId).isActive = true)
    (hlt : (st.streams streamId).lastUpdateTime < now)
    (hstop : (st.streams streamId).stopTime ≤ (st.streams streamId).lastUpdateTime) :
    updateStreamBalance streamId now st = (deactivateStream streamId st, false, 0) := by
  unfold updateStreamBalance
  rw [if_neg (by simp only [hact]; simp; omega)]
  rw [if_neg (Nat.not_lt.mpr hstop)]
  rw [if_pos rfl]

theorem updateStreamBalance_settle (streamId now : Nat) (st : ContractState)
    (hact : (st.streams streamId).isActive = true)
    (hlt : (st.streams streamId).lastUpdateTime < now)
    (hstop : (st.streams streamId).lastUpdateTime < (st.streams streamId).stopTime) :
    updateStreamBalance streamId now st =
      (let s := st.streams streamId
       let s1 : Stream := { s with
         realTimeBalance := s.realTimeBalance + (accrualAmount s now - accrualFee s now)
         lastUpdateTime := now }
       let st1 := { st with streams := fun j => if j = streamId then s1 else st.streams j }
       ((if s.stopTime ≤ now then deactivateStream streamId st1 else st1), true,
        accrualFee s now)) := by
  unfold updateStreamBalance
  rw [if_neg (by simp only [hact]; simp; omega)]
  rw [if_pos hstop]
  rw [if_neg (by omega)]
  have heff : (if now - (st.streams streamId).lastUpdateTime >
        (st.streams streamId).stopTime - (st.streams streamId).lastUpdateTime
      then (st.streams streamId).stopTime - (st.streams streamId).lastUpdateTime
      else now - (st.streams streamId).lastUpdateTime)
      = min now (st.streams streamId).stopTime - (st.streams streamId).lastUpdateTime := by
    split <;> omega
  rw [heff]
  simp only [Nat.mul_one]
  by_cases hc : 0 < accrualAmount (st.streams streamId) now / 1000 ∧
      accrualAmount (st.streams streamId) now / 1000 < accrualAmount (st.streams streamId) now
  · simp only [accrualAmount] at hc
    rw [if_pos hc]
    simp only [accrualFee, accrualAmount]
    rw [if_pos hc]
  · simp only [accrualAmount] at hc
    rw [if_neg hc]
    simp only [accrualFee, accrualAmount]
    rw [if_neg hc]
    simp

/-- The stream record as rewritten by a non-degenerate settlement at `now`
(derived form of the source's `realTimeBalance`/`lastUpdateTime` writes). -/
def settledStream (s : Stream) (now : Nat) : Stream :=
  { s with
    realTimeBalance := s.realTimeBalance + (accrualAmount s now - accrualFee s now)
    lastUpdateTime := now }

/-- Storage after the settlement writes of _updateStreamBalance, before the
completion check. -/
def settledState (streamId now : Nat) (st : ContractState) : ContractState :=
  { st with streams := fun j =>
      if j = streamId then settledStream (st.streams streamId) now else st.streams j }

theorem settledState_streams_self (streamId now : Nat) (st : ContractState) :
    (settledState streamId now st).streams streamId
      = settledStream (st.streams streamId) now := by
  simp [settledState]

theorem settledState_streams_ne (streamId j now : Nat) (st : ContractState) (h : j ≠ streamId) :
    (settledState streamId now st).streams j = st.streams j := by
  simp [settledState, h]

theorem updateStreamBalance_settle' (streamId now : Nat) (st : ContractState)
    (hact : (st.streams streamId).isActive = true)
    (hlt : (st.streams streamId).lastUpdateTime < now)
    (hstop : (st.streams streamId).lastUpdateTime < (st.streams streamId).stopTime) :
    updateStreamBalance streamId now st =
      ((if (st.streams streamId).stopTime ≤ now
        then deactivateStream streamId (settledState streamId now st)
        else settledState streamId now st), true,
       accrualFee (st.streams streamId) now) := by
  rw [updateStreamBalance_settle streamId now st hact hlt hstop]
  rfl

/-- Record eta for the ghost outflow. -/
theorem Outflow.eta (o : Outflow) : Outflow.mk o.fee o.toRecipient o.toSender = o := rfl

@[simp] theorem Outflow.fee_mk (a b c : Nat) : (Outflow.mk a b c).fee = a := rfl

@[simp] theorem Outflow.toRecipient_mk (a b c : Nat) : (Outflow.mk a b c).toRecipient = b := rfl

@[simp] theorem Outflow.toSender_mk (a b c : Nat) : (Outflow.mk a b c).toSender = c := rfl

theorem outflow_add_zero (out : Nat → Outflow) (streamId : Nat) :
    (fun j => if j = streamId then { out j with fee := (out j).fee + 0 } else out j) = out := by
  funext j
  by_cases hj : j = streamId <;> simp [hj]

/-- The five accounting facts a settlement establishes for the updated stream
record, plus the full per-stream invariant when the stream has not yet hit its
stop time. -/
theorem settle_core (s : Stream) (o : Outflow) (now : Nat) (h : SInv s o)
    (hlt : s.lastUpdateTime < now) (hstop : s.lastUpdateTime < s.stopTime) :
    s.amountWithdrawn ≤ s.realTimeBalance + (accrualAmount s now - accrualFee s now) ∧
    s.startTime ≤ now ∧
    s.flowRate * (s.stopTime - s.startTime) ≤ s.totalAmount ∧
    (s.realTimeBalance + (accrualAmount s now - accrualFee s now))
      + s.flowRate * (s.stopTime - now) ≤ s.totalAmount ∧
    1000 * (o.fee + accrualFee s now) ≤ s.flowRate * (min now s.stopTime - s.startTime) := by
  have hstart := h.start_le
  have hwd := h.wd_le
  have hrtb := h.rtb_le
  have hfee := h.fee_le
  have hminl : min s.lastUpdateTime s.stopTime = s.lastUpdateTime :=
    min_eq_left (Nat.le_of_lt hstop)
  rw [hminl] at hfee
  have hf_le : 1000 * accrualFee s now ≤ accrualAmount s now := by
    simp only [accrualFee]
    split
    · omega
    · omega
  have hn_comm : accrualAmount s now
      = s.flowRate * (min now s.stopTime - s.lastUpdateTime) := by
    simp only [accrualAmount]
    exact Nat.mul_comm _ _
  have hkey : s.flowRate * (min now s.stopTime - s.lastUpdateTime)
      + s.flowRate * (s.stopTime - now) ≤ s.flowRate * (s.stopTime - s.lastUpdateTime) := by
    rw [← Nat.mul_add]
    apply Nat.mul_le_mul_left
    omega
  have hsplitfee : s.flowRate * (s.lastUpdateTime - s.startTime)
      + s.flowRate * (min now s.stopTime - s.lastUpdateTime)
      = s.flowRate * (min now s.stopTime - s.startTime) := by
    rw [← Nat.mul_add]
    congr 1
    omega
  refine ⟨?_, ?_, h.rate_le, ?_, ?_⟩
  · omega
  · omega
  · omega
  · omega

theorem LInv_deactivateStream_of_settled (streamId : Nat) (st1 : ContractState)
    (out1 : Nat → Outflow)
    (hact1 : ActInv st1)
    (hsinv_ne : ∀ j, j ≠ streamId → SInv (st1.streams j) (out1 j))
    (hcore : (st1.streams streamId).amountWithdrawn ≤ (st1.streams streamId).realTimeBalance ∧
      (st1.streams streamId).startTime ≤ (st1.streams streamId).lastUpdateTime ∧
      (st1.streams streamId).flowRate
        * ((st1.streams streamId).stopTime - (st1.streams streamId).startTime)
        ≤ (st1.streams streamId).totalAmount ∧
      (st1.streams streamId).realTimeBalance + (st1.streams streamId).flowRate
        * ((st1.streams streamId).stopTime - (st1.streams streamId).lastUpdateTime)
        ≤ (st1.streams streamId).totalAmount ∧
      1000 * (out1 streamId).fee ≤ (st1.streams streamId).flowRate
        * (min (st1.streams streamId).lastUpdateTime (st1.streams streamId).stopTime
            - (st1.streams streamId).startTime))
    (hfresh : ∀ id, st1.nextStreamId ≤ id → out1 id = Outflow.zero) :
    LInv (deactivateStream streamId st1) out1 := by
  refine ⟨ActInv_deactivateStream streamId st1 hact1, ?_, ?_⟩
  · intro j
    by_cases hj : j = streamId
    · subst hj
      rcases deactivateStream_streams_cases j st1 with hc | hc
      · rw [hc]
        obtain ⟨h1, h2, h3, h4, h5⟩ := hcore
        -- the guard only fails when the stream is already inactive, in which
        -- case the record is unchanged; rebuild the invariant from the core
        -- facts, with the activity-conditioned fields discharged by cases
        by_cases hb : (st1.streams j).isActive = true
        · -- guard cannot have failed with an active stream in a list whose
          -- membership invariant holds
          have hmem : j ∈ st1.activeStreamIds := (hact1.mem_iff j).mpr hb
          have hlen : st1.activeStreamIds.length ≠ 0 := by
            intro h0
            rw [List.length_eq_zero] at h0
            rw [h0] at hmem
            simp at hmem
          have hde := deactivateStream_eq_of_active j st1 (by simp [hb, hlen])
          rw [hde] at hc
          simp at hc
          have hiseq := congrArg Stream.isActive hc
          simp [hb] at hiseq
        · have hb' : (st1.streams j).isActive = false := by simpa using hb
          exact ⟨h1, h2, h3, h4, h5,
            fun hx => absurd hx (by rw [hb']; simp),
            fun hx => absurd hx (by rw [hb']; simp)⟩
      · rw [hc]
        obtain ⟨h1, h2, h3, h4, h5⟩ := hcore
        exact ⟨h1, h2, h3, h4, h5,
          fun hx => by simp at hx, fun hx => by simp at hx⟩
    · rw [deactivateStream_streams_ne streamId j st1 hj]
      exact hsinv_ne j hj
  · intro j hj
    rw [(deactivateStream_scalars streamId st1).1] at hj
    exact hfresh j hj

/-- Settlement of one stream preserves the ledger invariant, with the paid
keeper reward credited to that stream's ghost outflow. -/
theorem LInv_updateStreamBalance (streamId now : Nat) (st : ContractState) (out : Nat → Outflow)
    (h : LInv st out) (st2 : ContractState) (settled : Bool) (fee : Nat)
    (heq : updateStreamBalance streamId now st = (st2, settled, fee)) :
    LInv st2 (fun j => if j = streamId then { out j with fee := (out j).fee + fee } else out j) := by
  by_cases h1 : (st.streams streamId).isActive = false ∨ now ≤ (st.streams streamId).lastUpdateTime
  · rw [updateStreamBalance_noop streamId now st h1] at heq
    simp only [Prod.mk.injEq] at heq
    obtain ⟨he1, _, he3⟩ := heq
    subst he1
    subst he3
    rw [outflow_add_zero]
    exact h
  · push_neg at h1
    obtain ⟨hactx, hltx⟩ := h1
    have hact : (st.streams streamId).isActive = true := by
      rcases Bool.eq_false_or_eq_true (st.streams streamId).isActive with h0 | h0
      · exact h0
      · exact absurd h0 hactx
    have hlt : (st.streams streamId).lastUpdateTime < now := hltx
    by_cases h2 : (st.streams streamId).stopTime ≤ (st.streams streamId).lastUpdateTime
    · rw [updateStreamBalance_expired streamId now st hact hlt h2] at heq
      simp only [Prod.mk.injEq] at heq
      obtain ⟨he1, _, he3⟩ := heq
      subst he1
      subst he3
      rw [outflow_add_zero]
      exact LInv_deactivateStream_of_settled streamId st out h.act
        (fun j _ => h.sinv j)
        ⟨(h.sinv streamId).wd_le, (h.sinv streamId).start_le, (h.sinv streamId).rate_le,
         (h.sinv streamId).rtb_le, (h.sinv streamId).fee_le⟩
        h.fresh
    · have hstop : (st.streams streamId).lastUpdateTime < (st.streams streamId).stopTime :=
        Nat.lt_of_not_le h2
      rw [updateStreamBalance_settle' streamId now st hact hlt hstop] at heq
      simp only [Prod.mk.injEq] at heq
      obtain ⟨he1, _, he3⟩ := heq
      subst he3
      obtain ⟨hc1, hc2, hc3, hc4, hc5⟩ :=
        settle_core (st.streams streamId) (out streamId) now (h.sinv streamId) hlt hstop
      have hprojself : (settledState streamId now st).streams streamId
          = settledStream (st.streams streamId) now := settledState_streams_self streamId now st
      have hs1act : (settledStream (st.streams streamId) now).isActive = true := hact
      have hact1 : ActInv (settledState streamId now st) := by
        refine ⟨?_, h.act.nodup, ?_, ?_⟩
        · intro j
          by_cases hj : j = streamId
          · subst hj
            rw [hprojself]
            constructor
            · intro _
              exact hs1act
            · intro _
              exact (h.act.mem_iff j).mpr hact
          · rw [settledState_streams_ne streamId j now st hj]
            exact h.act.mem_iff j
        · intro j hj
          exact h.act.pos j hj
        · intro j hj
          by_cases hjx : j = streamId
          · subst hjx
            exact h.act.lt_next j hact
          · rw [settledState_streams_ne streamId j now st hjx] at hj
            exact h.act.lt_next j hj
      have hltnext : streamId < st.nextStreamId := h.act.lt_next streamId hact
      have hout1self : (fun j => if j = streamId
            then { out j with fee := (out j).fee + accrualFee (st.streams streamId) now }
            else out j) streamId
          = { out streamId with
              fee := (out streamId).fee + accrualFee (st.streams streamId) now } := by
        simp
      have hout1ne : ∀ j, j ≠ streamId → (fun j => if j = streamId
            then { out j with fee := (out j).fee + accrualFee (st.streams streamId) now }
            else out j) j = out j := by
        intro j hj
        simp [hj]
      have hsinv_ne1 : ∀ j, j ≠ streamId →
          SInv ((settledState streamId now st).streams j)
            ((fun j => if j = streamId
              then { out j with fee := (out j).fee + accrualFee (st.streams streamId) now }
              else out j) j) := by
        intro j hj
        rw [settledState_streams_ne streamId j now st hj, hout1ne j hj]
        exact h.sinv j
      have hfresh1 : ∀ j, (settledState streamId now st).nextStreamId ≤ j →
          (fun j => if j = streamId
            then { out j with fee := (out j).fee + accrualFee (st.streams streamId) now }
            else out j) j = Outflow.zero := by
        intro j hj
        have hjn : st.nextStreamId ≤ j := hj
        have hjx : j ≠ streamId := by omega
        rw [hout1ne j hjx]
        exact h.fresh j hjn
      have hcore1 :
          ((settledState streamId now st).streams streamId).amountWithdrawn
            ≤ ((settledState streamId now st).streams streamId).realTimeBalance ∧
          ((settledState streamId now st).streams streamId).startTime
            ≤ ((settledState streamId now st).streams streamId).lastUpdateTime ∧
          ((settledState streamId now st).streams streamId).flowRate
            * (((settledState streamId now st).streams streamId).stopTime
                - ((settledState streamId now st).streams streamId).startTime)
            ≤ ((settledState streamId now st).streams streamId).totalAmount ∧
          ((settledState streamId now st).streams streamId).realTimeBalance
            + ((settledState streamId now st).streams streamId).flowRate
            * (((settledState streamId now st).streams streamId).stopTime
                - ((settledState streamId now st).streams streamId).lastUpdateTime)
            ≤ ((settledState streamId now st).streams streamId).totalAmount ∧
          1000 * ((fun j => if j = streamId
              then { out j with fee := (out j).fee + accrualFee (st.streams streamId) now }
              else out j) streamId).fee
            ≤ ((settledState streamId now st).streams streamId).flowRate
            * (min ((settledState streamId now st).streams streamId).lastUpdateTime
                ((settledState streamId now st).streams streamId).stopTime
                - ((settledState streamId now st).streams streamId).startTime) := by
        rw [hprojself, hout1self]
        exact ⟨hc1, hc2, hc3, hc4, hc5⟩
      by_cases h3 : (st.streams streamId).stopTime ≤ now
      · rw [if_pos h3] at he1
        subst he1
        exact LInv_deactivateStream_of_settled streamId (settledState streamId now st) _
          hact1 hsinv_ne1 hcore1 hfresh1
      · rw [if_neg h3] at he1
        subst he1
        refine ⟨hact1, ?_, hfresh1⟩
        intro j
        by_cases hj : j = streamId
        · subst hj
          rw [hprojself, if_pos rfl]
          refine ⟨hc1, hc2, hc3, hc4, hc5, ?_, ?_⟩
          · intro _
            show now < (st.streams j).stopTime
            omega
          · intro _
            have ho := (h.sinv j).outflow_eq hact
            exact ⟨ho.1, ho.2⟩
        · rw [settledState_streams_ne streamId j now st hj, if_neg hj]
          exact h.sinv j

theorem updateStreamBalance_scalars (streamId now : Nat) (st : ContractState) :
    (updateStreamBalance streamId now st).1.nextStreamId = st.nextStreamId ∧
    (updateStreamBalance streamId now st).1.paused = st.paused ∧
    (updateStreamBalance streamId now st).1.totalUpdatesPerformed = st.totalUpdatesPerformed ∧
    (updateStreamBalance streamId now st).1.lastBatchUpdateTime = st.lastBatchUpdateTime := by
  by_cases h1 : (st.streams streamId).isActive = false ∨ now ≤ (st.streams streamId).lastUpdateTime
  · rw [updateStreamBalance_noop streamId now st h1]
    exact ⟨rfl, rfl, rfl, rfl⟩
  · push_neg at h1
    obtain ⟨hactx, hltx⟩ := h1
    have hact : (st.streams streamId).isActive = true := by
      rcases Bool.eq_false_or_eq_true (st.streams streamId).isActive with h0 | h0
      · exact h0
      · exact absurd h0 hactx
    by_cases h2 : (st.streams streamId).stopTime ≤ (st.streams streamId).lastUpdateTime
    · rw [updateStreamBalance_expired streamId now st hact hltx h2]
      exact deactivateStream_scalars streamId st
    · rw [updateStreamBalance_settle' streamId now st hact hltx (Nat.lt_of_not_le h2)]
      by_cases h3 : (st.streams streamId).stopTime ≤ now
      · simp only [if_pos h3]
        have hd := deactivateStream_scalars streamId (settledState streamId now st)
        exact ⟨hd.1, hd.2.1, hd.2.2.1, hd.2.2.2⟩
      · simp only [if_neg h3]
        exact ⟨rfl, rfl, rfl, rfl⟩

/-- A stream that is inactive going into a settlement attempt comes out with
an unchanged record. -/
theorem updateStreamBalance_inactive_frozen (streamId j now : Nat) (st : ContractState)
    (h : (st.streams j).isActive = false) :
    (updateStreamBalance streamId now st).1.streams j = st.streams j := by
  by_cases hj : j = streamId
  · subst hj
    rw [updateStreamBalance_noop j now st (Or.inl h)]
  · by_cases h1 : (st.streams streamId).isActive = false
        ∨ now ≤ (st.streams streamId).lastUpdateTime
    · rw [updateStreamBalance_noop streamId now st h1]
    · push_neg at h1
      obtain ⟨hactx, hltx⟩ := h1
      have hact : (st.streams streamId).isActive = true := by
        rcases Bool.eq_false_or_eq_true (st.streams streamId).isActive with h0 | h0
        · exact h0
        · exact absurd h0 hactx
      by_cases h2 : (st.streams streamId).stopTime ≤ (st.streams streamId).lastUpdateTime
      · rw [updateStreamBalance_expired streamId now st hact hltx h2]
        exact deactivateStream_streams_ne streamId j st hj
      · rw [updateStreamBalance_settle' streamId now st hact hltx (Nat.lt_of_not_le h2)]
        by_cases h3 : (st.streams streamId).stopTime ≤ now
        · simp only [if_pos h3]
          rw [deactivateStream_streams_ne streamId j (settledState streamId now st) hj]
          exact settledState_streams_ne streamId j now st hj
        · simp only [if_neg h3]
          exact settledState_streams_ne streamId j now st hj

/-- One unfolding step of the batch loop. -/
theorem batchLoop_cons (streamId : Nat) (rest : List Nat) (now : Nat) (st : ContractState)
    (count : Nat) (out : Nat → Outflow) :
    batchLoop (streamId :: rest) now st count out =
      batchLoop rest now (updateStreamBalance streamId now st).1
        (if (updateStreamBalance streamId now st).2.1 then count + 1 else count)
        (fun j => if j = streamId
          then { out j with fee := (out j).fee + (updateStreamBalance streamId now st).2.2 }
          else out j) := rfl

theorem LInv_batchLoop (ids : List Nat) (now : Nat) (st : ContractState) (count : Nat)
    (out : Nat → Outflow) (h : LInv st out) :
    LInv (batchLoop ids now st count out).1 (batchLoop ids now st count out).2.2 := by
  induction ids generalizing st count out with
  | nil => exact h
  | cons streamId rest ih =>
    rw [batchLoop_cons]
    exact ih _ _ _ (LInv_updateStreamBalance streamId now st out h _ _ _ rfl)

/-- Invariance of the active-index structure under a state change that keeps
the index data and every stream's activity flag. -/
theorem ActInv_congr (st st' : ContractState)
    (hids : st'.activeStreamIds = st.activeStreamIds)
    (hidx : st'.activeStreamIndex = st.activeStreamIndex)
    (hnext : st'.nextStreamId = st.nextStreamId)
    (hstr : ∀ j, (st'.streams j).isActive = (st.streams j).isActive)
    (h : ActInv st) : ActInv st' := by
  refine ⟨?_, ?_, ?_, ?_⟩
  · intro j
    rw [hids, hstr j]
    exact h.mem_iff j
  · rw [hids]
    exact h.nodup
  · intro j hj
    rw [hids] at hj ⊢
    rw [hidx]
    exact h.pos j hj
  · intro j hj
    rw [hstr j] at hj
    rw [hnext]
    exact h.lt_next j hj

theorem LInv_createStreamInternal (sender recipient amount duration now : Nat)
    (ty d : String) (st : ContractState) (out : Nat → Outflow) (h : LInv st out)
    (st1 : ContractState) (newId : Nat)
    (heq : createStreamInternal sender recipient amount duration now ty d st
      = .ok (st1, newId)) :
    LInv st1 out := by
  unfold createStreamInternal at heq
  by_cases hfr : amount / duration = 0
  · rw [if_pos hfr] at heq
    simp at heq
  · rw [if_neg hfr] at heq
    simp only [Except.ok.injEq, Prod.mk.injEq] at heq
    obtain ⟨he1, he2⟩ := heq
    have hdur : 0 < duration := by
      by_contra hc
      have : duration = 0 := by omega
      rw [this] at hfr
      simp at hfr
    have hflow : 1 ≤ amount / duration := Nat.one_le_iff_ne_zero.mpr hfr
    have hzero : out st.nextStreamId = Outflow.zero := h.fresh st.nextStreamId (Nat.le_refl _)
    have hnotmem : st.nextStreamId ∉ st.activeStreamIds := by
      intro hmem
      have := h.act.lt_next st.nextStreamId ((h.act.mem_iff st.nextStreamId).mp hmem)
      omega
    subst he1
    subst he2
    refine ⟨⟨?_, ?_, ?_, ?_⟩, ?_, ?_⟩
    · intro j
      simp only [List.mem_append, List.mem_singleton]
      by_cases hj : j = st.nextStreamId
      · subst hj
        simp
      · simp only [hj, or_false, if_neg hj]
        exact h.act.mem_iff j
    · simp [List.nodup_append, hnotmem]
      exact h.act.nodup
    · intro j hj
      simp only [List.mem_append, List.mem_singleton] at hj
      by_cases hjn : j = st.nextStreamId
      · subst hjn
        simp only [if_pos rfl]
        exact getElem?_at_append_length st.activeStreamIds [] st.nextStreamId
      · rcases hj with hj | hj
        · simp only [if_neg hjn]
          have hp := h.act.pos j hj
          have hlt : st.activeStreamIndex j < st.activeStreamIds.length := by
            by_contra hc
            rw [List.getElem?_eq_none (Nat.le_of_not_lt hc)] at hp
            simp at hp
          rw [List.getElem?_append]
          simp only [if_pos hlt]
          exact hp
        · exact absurd hj hjn
    · intro j hj
      show j < st.nextStreamId + 1
      by_cases hjn : j = st.nextStreamId
      · omega
      · simp only [if_neg hjn] at hj
        have := h.act.lt_next j hj
        omega
    · intro j
      by_cases hjn : j = st.nextStreamId
      · subst hjn
        simp only [if_pos rfl]
        rw [hzero]
        refine ⟨?_, ?_, ?_, ?_, ?_, ?_, ?_⟩
        · exact Nat.le_refl 0
        · exact Nat.le_refl now
        · show amount / duration * (now + duration - now) ≤ amount
          rw [Nat.add_sub_cancel_left]
          exact Nat.div_mul_le_self amount duration
        · show 0 + amount / duration * (now + duration - now) ≤ amount
          rw [Nat.add_sub_cancel_left, Nat.zero_add]
          exact Nat.div_mul_le_self amount duration
        · show 1000 * 0 ≤ amount / duration * (min now (now + duration) - now)
          omega
        · intro _
          show now < now + duration
          omega
        · intro _
          exact ⟨rfl, rfl⟩
      · simp only [if_neg hjn]
        exact h.sinv j
    · intro j hj
      have : st.nextStreamId ≤ j := by
        show st.nextStreamId ≤ j
        have hj' : st.nextStreamId + 1 ≤ j := hj
        omega
      exact h.fresh j this

theorem LInv_createGroupLoop (sender : Nat) (recipients : List Nat)
    (amountPer duration now : Nat) (ty d : String) (st : ContractState)
    (out : Nat → Outflow) (h : LInv st out) (st1 : ContractState)
    (heq : createGroupLoop sender recipients amountPer duration now ty d st = .ok st1) :
    LInv st1 out := by
  induction recipients generalizing st with
  | nil =>
    simp only [createGroupLoop, Except.ok.injEq] at heq
    rw [← heq]
    exact h
  | cons r rest ih =>
    simp only [createGroupLoop] at heq
    by_cases hr0 : r = 0
    · rw [if_pos hr0] at heq
      simp at heq
    · rw [if_neg hr0] at heq
      by_cases hrs : r = sender
      · rw [if_pos hrs] at heq
        simp at heq
      · rw [if_neg hrs] at heq
        rcases hint : createStreamInternal sender r amountPer duration now ty d st with he | hok
        · rw [hint] at heq
          simp at heq
        · rw [hint] at heq
          rcases hok with ⟨stMid, midId⟩
          exact ih stMid
            (LInv_createStreamInternal sender r amountPer duration now ty d st out h
              stMid midId hint) heq

theorem LInv_withdrawFromStream (streamId caller now : Nat) (st : ContractState)
    (out : Nat → Outflow) (h : LInv st out) (st1 : ContractState) (fee paid : Nat)
    (heq : withdrawFromStream streamId caller now st = .ok (st1, fee, paid)) :
    LInv st1 (fun j => if j = streamId
      then { fee := (out j).fee + fee, toRecipient := (out j).toRecipient + paid
             toSender := (out j).toSender }
      else out j) := by
  unfold withdrawFromStream at heq
  by_cases hp : st.paused
  · rw [if_pos hp] at heq
    simp at heq
  · rw [if_neg hp] at heq
    by_cases hia : (st.streams streamId).isActive = false
    · rw [if_pos hia] at heq
      simp at heq
    · rw [if_neg hia] at heq
      by_cases hcr : caller ≠ (st.streams streamId).recipient
      · rw [if_pos hcr] at heq
        simp at heq
      · rw [if_neg hcr] at heq
        have hact : (st.streams streamId).isActive = true := by
          rcases Bool.eq_false_or_eq_true (st.streams streamId).isActive with h0 | h0
          · exact h0
          · exact absurd h0 hia
        rcases hupd : updateStreamBalance streamId now st with ⟨stU, settledU, feeU⟩
        rw [hupd] at heq
        simp only [] at heq
        by_cases hw : (stU.streams streamId).realTimeBalance
            - (stU.streams streamId).amountWithdrawn = 0
        · rw [if_pos hw] at heq
          simp at heq
        · rw [if_neg hw] at heq
          simp only [Except.ok.injEq, Prod.mk.injEq] at heq
          obtain ⟨he1, he2, he3⟩ := heq
          subst he2
          subst he3
          have hU := LInv_updateStreamBalance streamId now st out h stU settledU feeU hupd
          have hltnext : streamId < st.nextStreamId := h.act.lt_next streamId hact
          have hnext : stU.nextStreamId = st.nextStreamId :=
            (congrArg ContractState.nextStreamId
              (congrArg Prod.fst hupd)).symm.trans
              (updateStreamBalance_scalars streamId now st).1
          have hUfeeself : (fun j => if j = streamId
              then { out j with fee := (out j).fee + feeU } else out j) streamId
              = { out streamId with fee := (out streamId).fee + feeU } := by simp
          have hUfeene : ∀ j, j ≠ streamId → (fun j => if j = streamId
              then { out j with fee := (out j).fee + feeU } else out j) j = out j := by
            intro j hj
            simp [hj]
          subst he1
          refine ⟨?_, ?_, ?_⟩
          · refine ActInv_congr stU _ rfl rfl rfl ?_ hU.act
            intro j
            by_cases hj : j = streamId
            · subst hj
              simp only [if_pos rfl]
              rfl
            · simp only [if_neg hj]
          · intro j
            by_cases hj : j = streamId
            · subst hj
              have hsU := hU.sinv j
              rw [if_pos rfl] at hsU
              simp only [if_pos rfl]
              have hwd := hsU.wd_le
              refine ⟨?_, hsU.start_le, hsU.rate_le, ?_, hsU.fee_le, hsU.active_lt, ?_⟩
              · show (stU.streams j).amountWithdrawn
                    + ((stU.streams j).realTimeBalance - (stU.streams j).amountWithdrawn)
                  ≤ (stU.streams j).realTimeBalance
                omega
              · show (stU.streams j).realTimeBalance + (stU.streams j).flowRate
                    * ((stU.streams j).stopTime - (stU.streams j).lastUpdateTime)
                  ≤ (stU.streams j).totalAmount
                exact hsU.rtb_le
              · intro hactW
                have ho := hsU.outflow_eq hactW
                constructor
                · show (out j).toRecipient
                      + ((stU.streams j).realTimeBalance - (stU.streams j).amountWithdrawn)
                    = (stU.streams j).amountWithdrawn
                      + ((stU.streams j).realTimeBalance - (stU.streams j).amountWithdrawn)
                  have ho1 : (out j).toRecipient = (stU.streams j).amountWithdrawn := ho.1
                  omega
                · exact ho.2
            · simp only [if_neg hj]
              have hsU := hU.sinv j
              rw [if_neg hj] at hsU
              exact hsU
          · intro j hj
            have hjn : st.nextStreamId ≤ j := by
              have : stU.nextStreamId ≤ j := hj
              omega
            have hjx : j ≠ streamId := by omega
            simp only [if_neg hjx]
            exact h.fresh j hjn

theorem LInv_cancelStream (streamId caller now : Nat) (st : ContractState)
    (out : Nat → Outflow) (h : LInv st out) (st1 : ContractState) (fee toR toS : Nat)
    (heq : cancelStream streamId caller now st = .ok (st1, fee, toR, toS)) :
    LInv st1 (fun j => if j = streamId
      then { fee := (out j).fee + fee, toRecipient := (out j).toRecipient + toR
             toSender := (out j).toSender + toS }
      else out j) := by
  unfold cancelStream at heq
  by_cases hp : st.paused
  · rw [if_pos hp] at heq
    simp at heq
  · rw [if_neg hp] at heq
    by_cases hia : (st.streams streamId).isActive = false
    · rw [if_pos hia] at heq
      simp at heq
    · rw [if_neg hia] at heq
      by_cases hcr : ¬(caller = (st.streams streamId).sender
          ∨ caller = (st.streams streamId).recipient)
      · rw [if_pos hcr] at heq
        simp at heq
      · rw [if_neg hcr] at heq
        have hact : (st.streams streamId).isActive = true := by
          rcases Bool.eq_false_or_eq_true (st.streams streamId).isActive with h0 | h0
          · exact h0
          · exact absurd h0 hia
        rcases hupd : updateStreamBalance streamId now st with ⟨stU, settledU, feeU⟩
        rw [hupd] at heq
        simp only [Except.ok.injEq, Prod.mk.injEq] at heq
        obtain ⟨he1, he2, he3, he4⟩ := heq
        subst he2
        have hU := LInv_updateStreamBalance streamId now st out h stU settledU feeU hupd
        have hltnext : streamId < st.nextStreamId := h.act.lt_next streamId hact
        have hnext : stU.nextStreamId = st.nextStreamId :=
          (congrArg ContractState.nextStreamId
            (congrArg Prod.fst hupd)).symm.trans
            (updateStreamBalance_scalars streamId now st).1
        have hUfeeself : (fun j => if j = streamId
            then { out j with fee := (out j).fee + feeU } else out j) streamId
            = { out streamId with fee := (out streamId).fee + feeU } := by simp
        have hUfeene : ∀ j, j ≠ streamId → (fun j => if j = streamId
            then { out j with fee := (out j).fee + feeU } else out j) j = out j := by
          intro j hj
          simp [hj]
        subst he1
        refine LInv_deactivateStream_of_settled streamId stU _ hU.act ?_ ?_ ?_
        · intro j hj
          simp only [if_neg hj]
          have hsU := hU.sinv j
          rw [if_neg hj] at hsU
          exact hsU
        · have hsU := hU.sinv streamId
          rw [if_pos rfl] at hsU
          simp only [if_pos rfl]
          exact ⟨hsU.wd_le, hsU.start_le, hsU.rate_le, hsU.rtb_le, hsU.fee_le⟩
        · intro j hj
          have hjn : st.nextStreamId ≤ j := by
            have : stU.nextStreamId ≤ j := hj
            omega
          have hjx : j ≠ streamId := by omega
          simp only [if_neg hjx]
          exact h.fresh j hjn

theorem LInv_batchUpdateStreams (ids : List Nat) (now : Nat) (st : ContractState)
    (out : Nat → Outflow) (h : LInv st out) (st1 : ContractState) (count : Nat)
    (out1 : Nat → Outflow)
    (heq : batchUpdateStreams ids now st out = .ok (st1, count, out1)) :
    LInv st1 out1 := by
  unfold batchUpdateStreams at heq
  by_cases hp : st.paused
  · rw [if_pos hp] at heq
    simp at heq
  · rw [if_neg hp] at heq
    by_cases hlarge : MAX_BATCH_SIZE < ids.length
    · rw [if_pos hlarge] at heq
      simp at heq
    · rw [if_neg hlarge] at heq
      by_cases hfreq : now < st.lastBatchUpdateTime + MIN_UPDATE_INTERVAL
      · rw [if_pos hfreq] at heq
        simp at heq
      · rw [if_neg hfreq] at heq
        rcases hbl : batchLoop ids now st 0 out with ⟨stL, countL, outL⟩
        rw [hbl] at heq
        simp only [Except.ok.injEq, Prod.mk.injEq] at heq
        obtain ⟨he1, he2, he3⟩ := heq
        subst he3
        subst he1
        have hL := LInv_batchLoop ids now st 0 out h
        rw [hbl] at hL
        refine ⟨?_, hL.sinv, hL.fresh⟩
        exact ActInv_congr stL _ rfl rfl rfl (fun _ => rfl) hL.act

theorem LInv_createStream (sender recipient duration value : Nat) (ty d : String)
    (now : Nat) (st : ContractState) (out : Nat → Outflow) (h : LInv st out)
    (st1 : ContractState) (newId : Nat)
    (heq : createStream sender recipient duration value ty d now st = .ok (st1, newId)) :
    LInv st1 out := by
  unfold createStream at heq
  by_cases h1 : st.paused
  · rw [if_pos h1] at heq; simp at heq
  · rw [if_neg h1] at heq
    by_cases h2 : value = 0
    · rw [if_pos h2] at heq; simp at heq
    · rw [if_neg h2] at heq
      by_cases h3 : recipient = 0
      · rw [if_pos h3] at heq; simp at heq
      · rw [if_neg h3] at heq
        by_cases h4 : recipient = sender
        · rw [if_pos h4] at heq; simp at heq
        · rw [if_neg h4] at heq
          by_cases h5 : duration = 0
          · rw [if_pos h5] at heq; simp at heq
          · rw [if_neg h5] at heq
            by_cases h6 : MAX_STREAM_SECONDS < duration
            · rw [if_pos h6] at heq; simp at heq
            · rw [if_neg h6] at heq
              by_cases h7 : ty.length = 0
              · rw [if_pos h7] at heq; simp at heq
              · rw [if_neg h7] at heq
                by_cases h8 : value < duration
                · rw [if_pos h8] at heq; simp at heq
                · rw [if_neg h8] at heq
                  exact LInv_createStreamInternal sender recipient value duration now
                    ty d st out h st1 newId heq

theorem LInv_createGroupStream (sender : Nat) (recipients : List Nat)
    (duration value : Nat) (ty d : String) (now : Nat) (st : ContractState)
    (out : Nat → Outflow) (h : LInv st out) (st1 : ContractState)
    (heq : createGroupStream sender recipients duration value ty d now st = .ok st1) :
    LInv st1 out := by
  unfold createGroupStream at heq
  by_cases h1 : st.paused
  · rw [if_pos h1] at heq; simp at heq
  · rw [if_neg h1] at heq
    by_cases h2 : recipients.length = 0
    · rw [if_pos h2] at heq; simp at heq
    · rw [if_neg h2] at heq
      by_cases h3 : 50 < recipients.length
      · rw [if_pos h3] at heq; simp at heq
      · rw [if_neg h3] at heq
        by_cases h4 : value = 0
        · rw [if_pos h4] at heq; simp at heq
        · rw [if_neg h4] at heq
          by_cases h5 : duration = 0
          · rw [if_pos h5] at heq; simp at heq
          · rw [if_neg h5] at heq
            by_cases h6 : MAX_STREAM_SECONDS < duration
            · rw [if_pos h6] at heq; simp at heq
            · rw [if_neg h6] at heq
              by_cases h7 : ty.length = 0
              · rw [if_pos h7] at heq; simp at heq
              · rw [if_neg h7] at heq
                by_cases h8 : value % recipients.length ≠ 0
                · rw [if_pos h8] at heq; simp at heq
                · rw [if_neg h8] at heq
                  by_cases h9 : value / recipients.length < duration
                  · rw [if_pos h9] at heq; simp at heq
                  · rw [if_neg h9] at heq
                    exact LInv_createGroupLoop sender recipients
                      (value / recipients.length) duration now ty d st out h st1 heq

theorem LInv_step (a : Act) (st : ContractState) (out : Nat → Outflow) (h : LInv st out) :
    LInv (step a (st, out)).1 (step a (st, out)).2 := by
  cases a with
  | create sender recipient duration value ty d now =>
    simp only [step]
    rcases hc : createStream sender recipient duration value ty d now st with he | hok
    · exact h
    · rcases hok with ⟨st1, newId⟩
      exact LInv_createStream sender recipient duration value ty d now st out h st1 newId hc
  | createGroup sender rs duration value ty d now =>
    simp only [step]
    rcases hc : createGroupStream sender rs duration value ty d now st with he | st1
    · exact h
    · exact LInv_createGroupStream sender rs duration value ty d now st out h st1 hc
  | batch ids now =>
    simp only [step]
    rcases hc : batchUpdateStreams ids now st out with he | hok
    · exact h
    · rcases hok with ⟨st1, count, out1⟩
      exact LInv_batchUpdateStreams ids now st out h st1 count out1 hc
  | withdraw streamId caller now =>
    simp only [step]
    rcases hc : withdrawFromStream streamId caller now st with he | hok
    · exact h
    · rcases hok with ⟨st1, fee, paid⟩
      exact LInv_withdrawFromStream streamId caller now st out h st1 fee paid hc
  | cancel streamId caller now =>
    simp only [step]
    rcases hc : cancelStream streamId caller now st with he | hok
    · exact h
    · rcases hok with ⟨st1, fee, toR, toS⟩
      exact LInv_cancelStream streamId caller now st out h st1 fee toR toS hc
  | pause =>
    exact ⟨ActInv_congr st _ rfl rfl rfl (fun _ => rfl) h.act, h.sinv, h.fresh⟩
  | unpause =>
    exact ⟨ActInv_congr st _ rfl rfl rfl (fun _ => rfl) h.act, h.sinv, h.fresh⟩

theorem SInv_default : SInv defaultStream Outflow.zero := by
  refine ⟨?_, ?_, ?_, ?_, ?_, ?_, ?_⟩ <;> simp [defaultStream, Outflow.zero]

theorem LInv_genesis : LInv genesis (fun _ => Outflow.zero) := by
  refine ⟨⟨?_, ?_, ?_, ?_⟩, ?_, ?_⟩
  · intro j
    simp [genesis, defaultStream]
  · simp [genesis]
  · intro j hj
    simp [genesis] at hj
  · intro j hj
    simp [genesis, defaultStream] at hj
  · intro j
    exact SInv_default
  · intro j _
    rfl

theorem LInv_runFrom (acts : List Act) (st : ContractState) (out : Nat → Outflow)
    (h : LInv st out) : LInv (runFrom acts (st, out)).1 (runFrom acts (st, out)).2 := by
  induction acts generalizing st out with
  | nil => exact h
  | cons a rest ih =>
    have hstep := LInv_step a st out h
    have hrw : runFrom (a :: rest) (st, out) = runFrom rest (step a (st, out)) := rfl
    rw [hrw]
    rcases hs : step a (st, out) with ⟨st2, out2⟩
    rw [hs] at hstep
    exact ih st2 out2 hstep

/-- The ledger invariant holds at every reachable configuration. -/
theorem LInv_run (acts : List Act) : LInv (run acts).1 (run acts).2 :=
  LInv_runFrom acts genesis (fun _ => Outflow.zero) LInv_genesis

/-! Field-level consequences of a settlement, used by the claim theorems. -/

theorem deactivateStream_streams_fields (streamId : Nat) (st : ContractState) :
    ((deactivateStream streamId st).streams streamId).lastUpdateTime
      = (st.streams streamId).lastUpdateTime ∧
    ((deactivateStream streamId st).streams streamId).realTimeBalance
      = (st.streams streamId).realTimeBalance ∧
    ((deactivateStream streamId st).streams streamId).amountWithdrawn
      = (st.streams streamId).amountWithdrawn ∧
    ((deactivateStream streamId st).streams streamId).totalAmount
      = (st.streams streamId).totalAmount := by
  rcases deactivateStream_streams_cases streamId st with hc | hc <;> rw [hc] <;>
    exact ⟨rfl, rfl, rfl, rfl⟩

theorem updateStreamBalance_settle_fields (streamId now : Nat) (st : ContractState)
    (hact : (st.streams streamId).isActive = true)
    (hlt : (st.streams streamId).lastUpdateTime < now)
    (hstop : (st.streams streamId).lastUpdateTime < (st.streams streamId).stopTime) :
    ((updateStreamBalance streamId now st).1.streams streamId).lastUpdateTime = now ∧
    ((updateStreamBalance streamId now st).1.streams streamId).realTimeBalance
      = (st.streams streamId).realTimeBalance
        + (accrualAmount (st.streams streamId) now - accrualFee (st.streams streamId) now) ∧
    (updateStreamBalance streamId now st).2.1 = true ∧
    (updateStreamBalance streamId now st).2.2 = accrualFee (st.streams streamId) now := by
  rw [updateStreamBalance_settle' streamId now st hact hlt hstop]
  by_cases h3 : (st.streams streamId).stopTime ≤ now
  · simp only [if_pos h3]
    have hf := deactivateStream_streams_fields streamId (settledState streamId now st)
    rw [settledState_streams_self] at hf
    exact ⟨hf.1, hf.2.1, trivial, trivial⟩
  · simp only [if_neg h3]
    rw [settledState_streams_self]
    exact ⟨rfl, rfl, trivial, trivial⟩

theorem updateStreamBalance_aw_total (streamId now : Nat) (st : ContractState) :
    ((updateStreamBalance streamId now st).1.streams streamId).amountWithdrawn
      = (st.streams streamId).amountWithdrawn ∧
    ((updateStreamBalance streamId now st).1.streams streamId).totalAmount
      = (st.streams streamId).totalAmount := by
  by_cases h1 : (st.streams streamId).isActive = false ∨ now ≤ (st.streams streamId).lastUpdateTime
  · rw [updateStreamBalance_noop streamId now st h1]
    exact ⟨rfl, rfl⟩
  · push_neg at h1
    obtain ⟨hactx, hltx⟩ := h1
    have hact : (st.streams streamId).isActive = true := by
      rcases Bool.eq_false_or_eq_true (st.streams streamId).isActive with h0 | h0
      · exact h0
      · exact absurd h0 hactx
    by_cases h2 : (st.streams streamId).stopTime ≤ (st.streams streamId).lastUpdateTime
    · rw [updateStreamBalance_expired streamId now st hact hltx h2]
      have hf := deactivateStream_streams_fields streamId st
      exact ⟨hf.2.2.1, hf.2.2.2⟩
    · rw [updateStreamBalance_settle' streamId now st hact hltx (Nat.lt_of_not_le h2)]
      by_cases h3 : (st.streams streamId).stopTime ≤ now
      · simp only [if_pos h3]
        have hf := deactivateStream_streams_fields streamId (settledState streamId now st)
        rw [settledState_streams_self] at hf
        exact ⟨hf.2.2.1, hf.2.2.2⟩
      · simp only [if_neg h3]
        rw [settledState_streams_self]
        exact ⟨rfl, rfl⟩

/-- A second settlement attempt at the same timestamp is a no-op. -/
theorem updateStreamBalance_idem (streamId now : Nat) (st : ContractState) :
    updateStreamBalance streamId now ((updateStreamBalance streamId now st).1)
      = ((updateStreamBalance streamId now st).1, false, 0) := by
  by_cases h1 : (st.streams streamId).isActive = false ∨ now ≤ (st.streams streamId).lastUpdateTime
  · rw [updateStreamBalance_noop streamId now st h1]
    exact updateStreamBalance_noop streamId now st h1
  · push_neg at h1
    obtain ⟨hactx, hltx⟩ := h1
    have hact : (st.streams streamId).isActive = true := by
      rcases Bool.eq_false_or_eq_true (st.streams streamId).isActive with h0 | h0
      · exact h0
      · exact absurd h0 hactx
    by_cases h2 : (st.streams streamId).stopTime ≤ (st.streams streamId).lastUpdateTime
    · rw [updateStreamBalance_expired streamId now st hact hltx h2]
      by_cases hg : (st.streams streamId).isActive = false ∨ st.activeStreamIds.length = 0
      · rw [deactivateStream_eq_of_inactive streamId st hg]
        rw [updateStreamBalance_expired streamId now st hact hltx h2]
        rw [deactivateStream_eq_of_inactive streamId st hg]
      · have hdi : (deactivateStream streamId st).streams streamId
            = { st.streams streamId with isActive := false } := by
          rw [deactivateStream_eq_of_active streamId st hg]
          simp
        exact updateStreamBalance_noop streamId now (deactivateStream streamId st)
          (Or.inl (by rw [hdi]))
    · rw [updateStreamBalance_settle' streamId now st hact hltx (Nat.lt_of_not_le h2)]
      by_cases h3 : (st.streams streamId).stopTime ≤ now
      · simp only [if_pos h3]
        rcases deactivateStream_streams_cases streamId (settledState streamId now st)
          with hc | hc
        · rw [settledState_streams_self] at hc
          refine updateStreamBalance_noop streamId now _ (Or.inr ?_)
          rw [hc]
          exact Nat.le_refl now
        · rw [settledState_streams_self] at hc
          exact updateStreamBalance_noop streamId now _ (Or.inl (by rw [hc]))
      · simp only [if_neg h3]
        refine updateStreamBalance_noop streamId now _ (Or.inr ?_)
        rw [settledState_streams_self]
        exact Nat.le_refl now

/-- Duplicate ids in one batch are harmless: processing an id twice in a row
equals processing it once. -/
theorem batchLoop_dup (streamId : Nat) (rest : List Nat) (now : Nat) (st : ContractState)
    (count : Nat) (out : Nat → Outflow) :
    batchLoop (streamId :: streamId :: rest) now st count out
      = batchLoop (streamId :: rest) now st count out := by
  rw [batchLoop_cons streamId (streamId :: rest) now st count out,
      batchLoop_cons streamId rest now st count out]
  rw [batchLoop_cons]
  rw [updateStreamBalance_idem streamId now st]
  simp only [Bool.false_eq_true, if_false, Nat.add_zero]
  congr 1
  funext j
  by_cases hj : j = streamId <;> simp [hj]

/-- Characterization of a successful cancellation. -/
theorem cancelStream_eq (streamId caller now : Nat) (st : ContractState)
    (hpause : st.paused = false)
    (hact : (st.streams streamId).isActive = true)
    (hcaller : caller = (st.streams streamId).sender
      ∨ caller = (st.streams streamId).recipient) :
    cancelStream streamId caller now st =
      .ok (deactivateStream streamId (updateStreamBalance streamId now st).1,
           (updateStreamBalance streamId now st).2.2,
           ((updateStreamBalance streamId now st).1.streams streamId).realTimeBalance
             - ((updateStreamBalance streamId now st).1.streams streamId).amountWithdrawn,
           if ((updateStreamBalance streamId now st).1.streams streamId).amountWithdrawn
               + (((updateStreamBalance streamId now st).1.streams streamId).realTimeBalance
                  - ((updateStreamBalance streamId now st).1.streams streamId).amountWithdrawn)
               < ((updateStreamBalance streamId now st).1.streams streamId).totalAmount
           then ((updateStreamBalance streamId now st).1.streams streamId).totalAmount
               - (((updateStreamBalance streamId now st).1.streams streamId).amountWithdrawn
                  + (((updateStreamBalance streamId now st).1.streams streamId).realTimeBalance
                     - ((updateStreamBalance streamId now st).1.streams streamId).amountWithdrawn))
           else 0) := by
  unfold cancelStream
  rw [hpause]
  rw [if_neg (by simp)]
  rw [if_neg (by rw [hact]; simp)]
  rw [if_neg (not_not.mpr hcaller)]

/-- Inversion for a successful cancellation. -/
theorem cancelStream_ok_inv (streamId caller now : Nat) (st : ContractState)
    (r : ContractState × Nat × Nat × Nat)
    (heq : cancelStream streamId caller now st = .ok r) :
    st.paused = false ∧ (st.streams streamId).isActive = true ∧
      (caller = (st.streams streamId).sender ∨ caller = (st.streams streamId).recipient) := by
  unfold cancelStream at heq
  by_cases hp : st.paused
  · rw [if_pos hp] at heq
    simp at heq
  · rw [if_neg hp] at heq
    by_cases hia : (st.streams streamId).isActive = false
    · rw [if_pos hia] at heq
      simp at heq
    · rw [if_neg hia] at heq
      by_cases hcr : ¬(caller = (st.streams streamId).sender
          ∨ caller = (st.streams streamId).recipient)
      · rw [if_pos hcr] at heq
        simp at heq
      · have hor : caller = (st.streams streamId).sender
            ∨ caller = (st.streams streamId).recipient := not_not.mp hcr
        refine ⟨by simpa using hp, ?_, hor⟩
        rcases Bool.eq_false_or_eq_true (st.streams streamId).isActive with h0 | h0
        · exact h0
        · exact absurd h0 hia

/-! Claim theorems. -/

/-- C1: for every active stream with now > lastUpdateTime (every reachable
active stream further satisfies lastUpdateTime < stopTime, by the invariant
LInv_run), the realize step _updateStreamBalance computes
newAmount = flowRate * (min(now, stopTime) - lastUpdateTime) and a keeper fee
of floor(newAmount * 10 / 10000); when the fee is positive and strictly
smaller than newAmount it adds newAmount - fee to realTimeBalance and pays the
fee to the caller, otherwise it adds the full newAmount to realTimeBalance; it
then sets lastUpdateTime = now and returns settled = true, while an inactive
stream or now ≤ lastUpdateTime is a no-op returning settled = false. -/
theorem realize_spec (streamId now : Nat) (st : ContractState) (s : Stream)
    (newAmount keeperFee : Nat) (hs : s = st.streams streamId)
    (hn : newAmount = s.flowRate * (min now s.stopTime - s.lastUpdateTime))
    (hk : keeperFee = newAmount * 10 / 10000) :
    (s.isActive = false ∨ now ≤ s.lastUpdateTime →
      updateStreamBalance streamId now st = (st, false, 0)) ∧
    (s.isActive = true → s.lastUpdateTime < now → s.lastUpdateTime < s.stopTime →
      (updateStreamBalance streamId now st).2.1 = true ∧
      ((updateStreamBalance streamId now st).1.streams streamId).lastUpdateTime = now ∧
      (0 < keeperFee ∧ keeperFee < newAmount →
        (updateStreamBalance streamId now st).2.2 = keeperFee ∧
        ((updateStreamBalance streamId now st).1.streams streamId).realTimeBalance
          = s.realTimeBalance + (newAmount - keeperFee)) ∧
      (¬(0 < keeperFee ∧ keeperFee < newAmount) →
        (updateStreamBalance streamId now st).2.2 = 0 ∧
        ((updateStreamBalance streamId now st).1.streams streamId).realTimeBalance
          = s.realTimeBalance + newAmount)) := by
  subst hs
  constructor
  · intro h
    exact updateStreamBalance_noop streamId now st h
  · intro hact hlt hstop
    have hf := updateStreamBalance_settle_fields streamId now st hact hlt hstop
    have hAmt : accrualAmount (st.streams streamId) now = newAmount := by
      rw [hn]
      exact Nat.mul_comm _ _
    have hFee10 : newAmount / 1000 = keeperFee := by
      rw [hk]
      omega
    have hFee : accrualFee (st.streams streamId) now
        = if 0 < keeperFee ∧ keeperFee < newAmount then keeperFee else 0 := by
      simp only [accrualFee, hAmt, hFee10]
    refine ⟨hf.2.2.1, hf.1, ?_, ?_⟩
    · intro hc
      refine ⟨?_, ?_⟩
      · rw [hf.2.2.2, hFee, if_pos hc]
      · rw [hf.2.1, hAmt, hFee, if_pos hc]
    · intro hc
      refine ⟨?_, ?_⟩
      · rw [hf.2.2.2, hFee, if_neg hc]
      · rw [hf.2.1, hAmt, hFee, if_neg hc]
        simp

theorem realize_spec_witness :
    ((((run [Act.create 1 2 3600 3600 "work" "demo" 0]).1.streams 1).isActive = true ∧
      ((run [Act.create 1 2 3600 3600 "work" "demo" 0]).1.streams 1).lastUpdateTime < 1800 ∧
      ((run [Act.create 1 2 3600 3600 "work" "demo" 0]).1.streams 1).lastUpdateTime
        < ((run [Act.create 1 2 3600 3600 "work" "demo" 0]).1.streams 1).stopTime) ∧
     0 < (1800 : Nat) * 10 / 10000 ∧ (1800 : Nat) * 10 / 10000 < 1800) ∧
    ((updateStreamBalance 1 1800 (run [Act.create 1 2 3600 3600 "work" "demo" 0]).1).2.1
        = true ∧
     (updateStreamBalance 1 1800 (run [Act.create 1 2 3600 3600 "work" "demo" 0]).1).2.2
        = 1800 * 10 / 10000 ∧
     ((updateStreamBalance 1 1800
         (run [Act.create 1 2 3600 3600 "work" "demo" 0]).1).1.streams 1).lastUpdateTime
        = 1800 ∧
     ((updateStreamBalance 1 1800
         (run [Act.create 1 2 3600 3600 "work" "demo" 0]).1).1.streams 1).realTimeBalance
        = ((run [Act.create 1 2 3600 3600 "work" "demo" 0]).1.streams 1).realTimeBalance
          + (1800 - 1800 * 10 / 10000)) := by
  constructor
  · exact ⟨⟨by decide, by decide, by decide⟩, by decide, by decide⟩
  · have h := (realize_spec 1 1800 (run [Act.create 1 2 3600 3600 "work" "demo" 0]).1
      ((run [Act.create 1 2 3600 3600 "work" "demo" 0]).1.streams 1) 1800
      (1800 * 10 / 10000) rfl (by decide) rfl).2 (by decide) (by decide) (by decide)
    have hc := h.2.2.1 ⟨by decide, by decide⟩
    exact ⟨h.1, hc.1, h.2.1, hc.2⟩

/-- C2: the read-only balance query _getCurrentBalance returns 0 for an
inactive stream; otherwise, with effectiveNow = min(now, stopTime), it returns
realTimeBalance - amountWithdrawn when effectiveNow ≤ lastUpdateTime, and
max(0, realTimeBalance + flowRate * (effectiveNow - lastUpdateTime)
- amountWithdrawn) when effectiveNow > lastUpdateTime (rendered with Int.toNat
over exact integer arithmetic).  The model is a pure function of the state, so
absence of state mutation is structural. -/
theorem currentBalance_spec (streamId now : Nat) (st : ContractState) (s : Stream)
    (effectiveNow : Nat) (hs : s = st.streams streamId)
    (he : effectiveNow = min now s.stopTime) :
    (s.isActive = false → getCurrentBalance streamId now st = 0) ∧
    (s.isActive = true → effectiveNow ≤ s.lastUpdateTime →
      getCurrentBalance streamId now st = s.realTimeBalance - s.amountWithdrawn) ∧
    (s.isActive = true → s.lastUpdateTime < effectiveNow →
      getCurrentBalance streamId now st
        = Int.toNat (((s.realTimeBalance
            + s.flowRate * (effectiveNow - s.lastUpdateTime) : Nat) : Int)
            - (s.amountWithdrawn : Int))) := by
  subst hs
  subst he
  unfold getCurrentBalance
  have hct : (if (st.streams streamId).stopTime < now
      then (st.streams streamId).stopTime else now)
      = min now (st.streams streamId).stopTime := by
    split <;> omega
  refine ⟨?_, ?_, ?_⟩
  · intro h
    rw [if_pos h]
  · intro hact hle
    rw [if_neg (by rw [hact]; simp)]
    rw [hct]
    rw [if_pos hle]
  · intro hact hlt
    rw [if_neg (by rw [hact]; simp)]
    rw [hct]
    rw [if_neg (by omega)]
    have hcm : (min now (st.streams streamId).stopTime
          - (st.streams streamId).lastUpdateTime) * (st.streams streamId).flowRate
        = (st.streams streamId).flowRate
          * (min now (st.streams streamId).stopTime
              - (st.streams streamId).lastUpdateTime) := Nat.mul_comm _ _
    simp only []
    split <;> omega

theorem currentBalance_spec_witness :
    ((((run [Act.create 1 2 3600 3600 "work" "demo" 0]).1.streams 1).isActive = true ∧
      ((run [Act.create 1 2 3600 3600 "work" "demo" 0]).1.streams 1).lastUpdateTime
        < min 1800 ((run [Act.create 1 2 3600 3600 "work" "demo" 0]).1.streams 1).stopTime)) ∧
    getCurrentBalance 1 1800 (run [Act.create 1 2 3600 3600 "work" "demo" 0]).1 = 1800 := by
  constructor
  · exact ⟨by decide, by decide⟩
  · have h := (currentBalance_spec 1 1800 (run [Act.create 1 2 3600 3600 "work" "demo" 0]).1
      ((run [Act.create 1 2 3600 3600 "work" "demo" 0]).1.streams 1)
      (min 1800 ((run [Act.create 1 2 3600 3600 "work" "demo" 0]).1.streams 1).stopTime)
      rfl rfl).2.2 (by decide) (by decide)
    rw [h]
    decide

/-- C4: over any transaction sequence, the cumulative keeper fee paid out of a
single stream's accruals never exceeds FEE_BPS/10000 = 10/10000 of that
stream's totalAmount (stated multiplied out: 10000 * fees ≤ 10 * total). -/
theorem fee_bounded (acts : List Act) (streamId : Nat) :
    10000 * ((run acts).2 streamId).fee
      ≤ 10 * (((run acts).1).streams streamId).totalAmount := by
  have hs := (LInv_run acts).sinv streamId
  have h1 := hs.fee_le
  have h2 := hs.rate_le
  have h3 : (((run acts).1).streams streamId).flowRate
      * (min (((run acts).1).streams streamId).lastUpdateTime
          (((run acts).1).streams streamId).stopTime
         - (((run acts).1).streams streamId).startTime)
      ≤ (((run acts).1).streams streamId).flowRate
      * ((((run acts).1).streams streamId).stopTime
         - (((run acts).1).streams streamId).startTime) := by
    apply Nat.mul_le_mul_left
    omega
  omega

/-- C8: at every reachable ledger state, a stream id is in the active-stream
array iff its isActive flag is true; the array is duplicate-free; and every
member's recorded position in the back-reference index map is correct (so
swap-with-last removal never leaves a stale or duplicate entry). -/
theorem active_index_correct (acts : List Act) :
    (∀ streamId, streamId ∈ ((run acts).1).activeStreamIds
        ↔ (((run acts).1).streams streamId).isActive = true) ∧
    ((run acts).1).activeStreamIds.Nodup ∧
    (∀ streamId, streamId ∈ ((run acts).1).activeStreamIds →
      ((run acts).1).activeStreamIds[((run acts).1).activeStreamIndex streamId]?
        = some streamId) :=
  ⟨(LInv_run acts).act.mem_iff, (LInv_run acts).act.nodup, (LInv_run acts).act.pos⟩

/-- C3: conservation at every reachable state.  For an active stream (the
pause flag clear, so the call is admissible), amountWithdrawn plus the
recipient payout a cancelStream at `now` would make plus the sender refund it
would make equals totalAmount exactly — no value created or destroyed. -/
theorem cancel_conservation (acts : List Act) (streamId now : Nat)
    (hact : (((run acts).1).streams streamId).isActive = true)
    (hpause : ((run acts).1).paused = false) :
    ∃ st2 fee recipientPayout senderRefund,
      cancelStream streamId (((run acts).1).streams streamId).sender now ((run acts).1)
        = .ok (st2, fee, recipientPayout, senderRefund) ∧
      (((run acts).1).streams streamId).amountWithdrawn + recipientPayout + senderRefund
        = (((run acts).1).streams streamId).totalAmount := by
  have hinv := LInv_run acts
  have hceq := cancelStream_eq streamId (((run acts).1).streams streamId).sender now
    ((run acts).1) hpause hact (Or.inl rfl)
  refine ⟨_, _, _, _, hceq, ?_⟩
  have hU := LInv_updateStreamBalance streamId now ((run acts).1) ((run acts).2) hinv
    ((updateStreamBalance streamId now ((run acts).1)).1)
    ((updateStreamBalance streamId now ((run acts).1)).2.1)
    ((updateStreamBalance streamId now ((run acts).1)).2.2) rfl
  have hwd := (hU.sinv streamId).wd_le
  have hrtb := (hU.sinv streamId).rtb_le
  have hawt := updateStreamBalance_aw_total streamId now ((run acts).1)
  split <;> omega

theorem cancel_conservation_witness :
    ((((run [Act.create 1 2 3600 3600 "work" "demo" 0,
          Act.batch [1] 1800]).1).streams 1).isActive = true ∧
     ((run [Act.create 1 2 3600 3600 "work" "demo" 0,
          Act.batch [1] 1800]).1).paused = false) ∧
    (∃ st2 fee recipientPayout senderRefund,
      cancelStream 1
          (((run [Act.create 1 2 3600 3600 "work" "demo" 0,
              Act.batch [1] 1800]).1).streams 1).sender 2000
          ((run [Act.create 1 2 3600 3600 "work" "demo" 0, Act.batch [1] 1800]).1)
        = .ok (st2, fee, recipientPayout, senderRefund) ∧
      (((run [Act.create 1 2 3600 3600 "work" "demo" 0,
          Act.batch [1] 1800]).1).streams 1).amountWithdrawn + recipientPayout + senderRefund
        = (((run [Act.create 1 2 3600 3600 "work" "demo" 0,
            Act.batch [1] 1800]).1).streams 1).totalAmount) :=
  ⟨⟨by decide, by decide⟩,
   cancel_conservation [Act.create 1 2 3600 3600 "work" "demo" 0, Act.batch [1] 1800]
     1 2000 (by decide) (by decide)⟩

/-- C10: for a cancelled stream, the sender refund is computed as totalAmount
minus the fee-net realized balance — the keeper fees already paid are not
deducted from the refund — so the cumulative value the contract transfers out
on behalf of that stream (recipient withdrawals and cancellation payout,
sender refund, and keeper fees) equals totalAmount plus the cumulative keeper
fees, strictly exceeding the escrowed totalAmount whenever any fee was
paid. -/
theorem cancel_outflow_exceeds_escrow (acts : List Act) (streamId caller now : Nat)
    (r : ContractState × Nat × Nat × Nat)
    (hc : cancelStream streamId caller now ((run acts).1) = .ok r) :
    ((run (acts ++ [Act.cancel streamId caller now])).2 streamId).toRecipient
      + ((run (acts ++ [Act.cancel streamId caller now])).2 streamId).toSender
      = (((run (acts ++ [Act.cancel streamId caller now])).1).streams streamId).totalAmount ∧
    (0 < ((run (acts ++ [Act.cancel streamId caller now])).2 streamId).fee →
      (((run (acts ++ [Act.cancel streamId caller now])).1).streams streamId).totalAmount
        < ((run (acts ++ [Act.cancel streamId caller now])).2 streamId).toRecipient
          + ((run (acts ++ [Act.cancel streamId caller now])).2 streamId).toSender
          + ((run (acts ++ [Act.cancel streamId caller now])).2 streamId).fee) := by
  have hrun : run (acts ++ [Act.cancel streamId caller now])
      = step (Act.cancel streamId caller now) (run acts) := by
    simp [run, runFrom, List.foldl_append]
  obtain ⟨hpf, hactf, hcallf⟩ := cancelStream_ok_inv streamId caller now ((run acts).1) r hc
  have hceq := cancelStream_eq streamId caller now ((run acts).1) hpf hactf hcallf
  have hinv := LInv_run acts
  have hofe := (hinv.sinv streamId).outflow_eq hactf
  have hU := LInv_updateStreamBalance streamId now ((run acts).1) ((run acts).2) hinv
    ((updateStreamBalance streamId now ((run acts).1)).1)
    ((updateStreamBalance streamId now ((run acts).1)).2.1)
    ((updateStreamBalance streamId now ((run acts).1)).2.2) rfl
  have hwd := (hU.sinv streamId).wd_le
  have hrtb := (hU.sinv streamId).rtb_le
  have hawt := updateStreamBalance_aw_total streamId now ((run acts).1)
  have hdf := deactivateStream_streams_fields streamId
    ((updateStreamBalance streamId now ((run acts).1)).1)
  have htot := hdf.2.2.2
  have hrtbd := hdf.2.1
  have hawd := hdf.2.2.1
  have hto := hofe.1
  have hts := hofe.2
  rw [hrun]
  simp only [step]
  rw [hceq]
  simp only [eq_self_iff_true, if_true, Outflow.fee_mk, Outflow.toRecipient_mk,
    Outflow.toSender_mk]
  constructor
  · split <;> omega
  · intro hfp
    split <;> omega

theorem cancel_outflow_exceeds_escrow_witness :
    (∃ r, cancelStream 1 1 2000
        ((run [Act.create 1 2 3600 3600 "work" "demo" 0, Act.batch [1] 1800]).1) = .ok r) ∧
    (0 < ((run ([Act.create 1 2 3600 3600 "work" "demo" 0, Act.batch [1] 1800]
          ++ [Act.cancel 1 1 2000])).2 1).fee ∧
     (((run ([Act.create 1 2 3600 3600 "work" "demo" 0, Act.batch [1] 1800]
          ++ [Act.cancel 1 1 2000])).1).streams 1).totalAmount
       < ((run ([Act.create 1 2 3600 3600 "work" "demo" 0, Act.batch [1] 1800]
            ++ [Act.cancel 1 1 2000])).2 1).toRecipient
         + ((run ([Act.create 1 2 3600 3600 "work" "demo" 0, Act.batch [1] 1800]
            ++ [Act.cancel 1 1 2000])).2 1).toSender
         + ((run ([Act.create 1 2 3600 3600 "work" "demo" 0, Act.batch [1] 1800]
            ++ [Act.cancel 1 1 2000])).2 1).fee) := by
  refine ⟨⟨_, rfl⟩, by decide, ?_⟩
  exact (cancel_outflow_exceeds_escrow
    [Act.create 1 2 3600 3600 "work" "demo" 0, Act.batch [1] 1800]
    1 1 2000 _ rfl).2 (by decide)

/-! Freezing lemmas: once a stream is inactive (and its id already allocated),
no later transaction changes its record or moves any further value on its
behalf. -/

theorem createStreamInternal_frozen (sender recipient amount duration now : Nat)
    (ty d : String) (st : ContractState) (st1 : ContractState) (newId : Nat)
    (heq : createStreamInternal sender recipient amount duration now ty d st
      = .ok (st1, newId))
    (j : Nat) (hj : j < st.nextStreamId) :
    st1.streams j = st.streams j ∧ st.nextStreamId ≤ st1.nextStreamId := by
  unfold createStreamInternal at heq
  by_cases hfr : amount / duration = 0
  · rw [if_pos hfr] at heq
    simp at heq
  · rw [if_neg hfr] at heq
    simp only [Except.ok.injEq, Prod.mk.injEq] at heq
    obtain ⟨he1, _⟩ := heq
    subst he1
    constructor
    · have hne : j ≠ st.nextStreamId := by omega
      simp [hne]
    · show st.nextStreamId ≤ st.nextStreamId + 1
      omega

theorem createStream_ok_internal (sender recipient duration value : Nat) (ty d : String)
    (now : Nat) (st st1 : ContractState) (newId : Nat)
    (heq : createStream sender recipient duration value ty d now st = .ok (st1, newId)) :
    createStreamInternal sender recipient value duration now ty d st = .ok (st1, newId) := by
  unfold createStream at heq
  by_cases h1 : st.paused
  · rw [if_pos h1] at heq; simp at heq
  · rw [if_neg h1] at heq
    by_cases h2 : value = 0
    · rw [if_pos h2] at heq; simp at heq
    · rw [if_neg h2] at heq
      by_cases h3 : recipient = 0
      · rw [if_pos h3] at heq; simp at heq
      · rw [if_neg h3] at heq
        by_cases h4 : recipient = sender
        · rw [if_pos h4] at heq; simp at heq
        · rw [if_neg h4] at heq
          by_cases h5 : duration = 0
          · rw [if_pos h5] at heq; simp at heq
          · rw [if_neg h5] at heq
            by_cases h6 : MAX_STREAM_SECONDS < duration
            · rw [if_pos h6] at heq; simp at heq
            · rw [if_neg h6] at heq
              by_cases h7 : ty.length = 0
              · rw [if_pos h7] at heq; simp at heq
              · rw [if_neg h7] at heq
                by_cases h8 : value < duration
                · rw [if_pos h8] at heq; simp at heq
                · rw [if_neg h8] at heq
                  exact heq

theorem createGroupLoop_frozen (sender : Nat) (recips : List Nat)
    (amountPer duration now : Nat) (ty d : String) (st st1 : ContractState)
    (heq : createGroupLoop sender recips amountPer duration now ty d st = .ok st1)
    (j : Nat) (hj : j < st.nextStreamId) :
    st1.streams j = st.streams j ∧ st.nextStreamId ≤ st1.nextStreamId := by
  induction recips generalizing st with
  | nil =>
    simp only [createGroupLoop, Except.ok.injEq] at heq
    rw [← heq]
    exact ⟨rfl, Nat.le_refl _⟩
  | cons r rest ih =>
    simp only [createGroupLoop] at heq
    by_cases hr0 : r = 0
    · rw [if_pos hr0] at heq; simp at heq
    · rw [if_neg hr0] at heq
      by_cases hrs : r = sender
      · rw [if_pos hrs] at heq; simp at heq
      · rw [if_neg hrs] at heq
        rcases hint : createStreamInternal sender r amountPer duration now ty d st
          with he | hok
        · rw [hint] at heq
          simp at heq
        · rw [hint] at heq
          rcases hok with ⟨stMid, midId⟩
          obtain ⟨ha, hb⟩ := createStreamInternal_frozen sender r amountPer duration now
            ty d st stMid midId hint j hj
          obtain ⟨hc, hd⟩ := ih stMid heq (by omega)
          exact ⟨hc.trans ha, by omega⟩

theorem createGroupStream_ok_loop (sender : Nat) (recips : List Nat)
    (duration value : Nat) (ty d : String) (now : Nat) (st st1 : ContractState)
    (heq : createGroupStream sender recips duration value ty d now st = .ok st1) :
    createGroupLoop sender recips (value / recips.length) duration now ty d st
      = .ok st1 := by
  unfold createGroupStream at heq
  by_cases h1 : st.paused
  · rw [if_pos h1] at heq; simp at heq
  · rw [if_neg h1] at heq
    by_cases h2 : recips.length = 0
    · rw [if_pos h2] at heq; simp at heq
    · rw [if_neg h2] at heq
      by_cases h3 : 50 < recips.length
      · rw [if_pos h3] at heq; simp at heq
      · rw [if_neg h3] at heq
        by_cases h4 : value = 0
        · rw [if_pos h4] at heq; simp at heq
        · rw [if_neg h4] at heq
          by_cases h5 : duration = 0
          · rw [if_pos h5] at heq; simp at heq
          · rw [if_neg h5] at heq
            by_cases h6 : MAX_STREAM_SECONDS < duration
            · rw [if_pos h6] at heq; simp at heq
            · rw [if_neg h6] at heq
              by_cases h7 : ty.length = 0
              · rw [if_pos h7] at heq; simp at heq
              · rw [if_neg h7] at heq
                by_cases h8 : value % recips.length ≠ 0
                · rw [if_pos h8] at heq; simp at heq
                · rw [if_neg h8] at heq
                  by_cases h9 : value / recips.length < duration
                  · rw [if_pos h9] at heq; simp at heq
                  · rw [if_neg h9] at heq
                    exact heq

theorem batchLoop_scalars (ids : List Nat) (now : Nat) (st : ContractState)
    (count : Nat) (out : Nat → Outflow) :
    (batchLoop ids now st count out).1.nextStreamId = st.nextStreamId ∧
    (batchLoop ids now st count out).1.totalUpdatesPerformed = st.totalUpdatesPerformed ∧
    (batchLoop ids now st count out).1.paused = st.paused ∧
    (batchLoop ids now st count out).1.lastBatchUpdateTime = st.lastBatchUpdateTime := by
  induction ids generalizing st count out with
  | nil => exact ⟨rfl, rfl, rfl, rfl⟩
  | cons streamId rest ih =>
    rw [batchLoop_cons]
    have hs := updateStreamBalance_scalars streamId now st
    obtain ⟨ha, hb, hc, hd⟩ := ih (updateStreamBalance streamId now st).1
      (if (updateStreamBalance streamId now st).2.1 then count + 1 else count)
      (fun j => if j = streamId
        then { out j with fee := (out j).fee + (updateStreamBalance streamId now st).2.2 }
        else out j)
    exact ⟨ha.trans hs.1, hb.trans hs.2.2.1, hc.trans hs.2.1, hd.trans hs.2.2.2⟩

theorem batchLoop_frozen (ids : List Nat) (now : Nat) (st : ContractState) (count : Nat)
    (out : Nat → Outflow) (j : Nat) (hin : (st.streams j).isActive = false) :
    (batchLoop ids now st count out).1.streams j = st.streams j ∧
    (batchLoop ids now st count out).2.2 j = out j := by
  induction ids generalizing st count out with
  | nil => exact ⟨rfl, rfl⟩
  | cons streamId rest ih =>
    rw [batchLoop_cons]
    have hfrozen := updateStreamBalance_inactive_frozen streamId j now st hin
    have hin1 : ((updateStreamBalance streamId now st).1.streams j).isActive = false := by
      rw [hfrozen]
      exact hin
    obtain ⟨ha, hb⟩ := ih (updateStreamBalance streamId now st).1
      (if (updateStreamBalance streamId now st).2.1 then count + 1 else count)
      (fun k => if k = streamId
        then { out k with fee := (out k).fee + (updateStreamBalance streamId now st).2.2 }
        else out k) hin1
    refine ⟨ha.trans hfrozen, ?_⟩
    rw [hb]
    by_cases hj : j = streamId
    · subst hj
      rw [updateStreamBalance_noop j now st (Or.inl hin)]
      simp
    · simp [hj]

theorem batchUpdateStreams_ok_shape (ids : List Nat) (now : Nat) (st : ContractState)
    (out : Nat → Outflow) (st1 : ContractState) (count : Nat) (out1 : Nat → Outflow)
    (heq : batchUpdateStreams ids now st out = .ok (st1, count, out1)) :
    st1.streams = (batchLoop ids now st 0 out).1.streams ∧
    out1 = (batchLoop ids now st 0 out).2.2 ∧
    st1.nextStreamId = st.nextStreamId ∧
    count = (batchLoop ids now st 0 out).2.1 ∧
    st1.lastBatchUpdateTime = now ∧
    st1.totalUpdatesPerformed = st.totalUpdatesPerformed + count := by
  unfold batchUpdateStreams at heq
  by_cases hp : st.paused
  · rw [if_pos hp] at heq; simp at heq
  · rw [if_neg hp] at heq
    by_cases hlarge : MAX_BATCH_SIZE < ids.length
    · rw [if_pos hlarge] at heq; simp at heq
    · rw [if_neg hlarge] at heq
      by_cases hfreq : now < st.lastBatchUpdateTime + MIN_UPDATE_INTERVAL
      · rw [if_pos hfreq] at heq; simp at heq
      · rw [if_neg hfreq] at heq
        rcases hbl : batchLoop ids now st 0 out with ⟨stL, countL, outL⟩
        rw [hbl] at heq
        simp only [Except.ok.injEq, Prod.mk.injEq] at heq
        obtain ⟨he1, he2, he3⟩ := heq
        subst he3
        subst he2
        rw [← he1]
        have hsc := batchLoop_scalars ids now st 0 out
        rw [hbl] at hsc
        refine ⟨rfl, rfl, hsc.1, rfl, rfl, ?_⟩
        show stL.totalUpdatesPerformed + countL = st.totalUpdatesPerformed + countL
        rw [hsc.2.1]

theorem withdrawFromStream_ok_shape (streamId caller now : Nat) (st st1 : ContractState)
    (fee paid : Nat)
    (heq : withdrawFromStream streamId caller now st = .ok (st1, fee, paid)) :
    (st.streams streamId).isActive = true ∧
    (∀ j, j ≠ streamId →
      st1.streams j = (updateStreamBalance streamId now st).1.streams j) ∧
    st1.nextStreamId = st.nextStreamId := by
  unfold withdrawFromStream at heq
  by_cases hp : st.paused
  · rw [if_pos hp] at heq
    simp at heq
  · rw [if_neg hp] at heq
    by_cases hia : (st.streams streamId).isActive = false
    · rw [if_pos hia] at heq
      simp at heq
    · rw [if_neg hia] at heq
      by_cases hcr : caller ≠ (st.streams streamId).recipient
      · rw [if_pos hcr] at heq
        simp at heq
      · rw [if_neg hcr] at heq
        rcases hupd : updateStreamBalance streamId now st with ⟨stU, settledU, feeU⟩
        rw [hupd] at heq
        simp only [] at heq
        by_cases hw : (stU.streams streamId).realTimeBalance
            - (stU.streams streamId).amountWithdrawn = 0
        · rw [if_pos hw] at heq
          simp at heq
        · rw [if_neg hw] at heq
          simp only [Except.ok.injEq, Prod.mk.injEq] at heq
          obtain ⟨he1, _, _⟩ := heq
          refine ⟨?_, ?_, ?_⟩
          · rcases Bool.eq_false_or_eq_true (st.streams streamId).isActive with h0 | h0
            · exact h0
            · exact absurd h0 hia
          · intro j hj
            rw [← he1]
            simp [hj]
          · rw [← he1]
            show stU.nextStreamId = st.nextStreamId
            have hs := (updateStreamBalance_scalars streamId now st).1
            rw [hupd] at hs
            exact hs

theorem step_frozen (a : Act) (st : ContractState) (out : Nat → Outflow) (j : Nat)
    (hin : (st.streams j).isActive = false) (hlt : j < st.nextStreamId) :
    (step a (st, out)).1.streams j = st.streams j ∧
    (step a (st, out)).2 j = out j ∧
    st.nextStreamId ≤ (step a (st, out)).1.nextStreamId := by
  cases a with
  | create sender recipient duration value ty d now =>
    simp only [step]
    rcases hc : createStream sender recipient duration value ty d now st with he | hok
    · exact ⟨rfl, rfl, Nat.le_refl _⟩
    · rcases hok with ⟨st1, newId⟩
      have hint := createStream_ok_internal sender recipient duration value ty d now
        st st1 newId hc
      obtain ⟨ha, hb⟩ := createStreamInternal_frozen sender recipient value duration now
        ty d st st1 newId hint j hlt
      exact ⟨ha, rfl, hb⟩
  | createGroup sender rs duration value ty d now =>
    simp only [step]
    rcases hc : createGroupStream sender rs duration value ty d now st with he | st1
    · exact ⟨rfl, rfl, Nat.le_refl _⟩
    · have hloop := createGroupStream_ok_loop sender rs duration value ty d now st st1 hc
      obtain ⟨ha, hb⟩ := createGroupLoop_frozen sender rs (value / rs.length) duration now
        ty d st st1 hloop j hlt
      exact ⟨ha, rfl, hb⟩
  | batch ids now =>
    simp only [step]
    rcases hc : batchUpdateStreams ids now st out with he | hok
    · exact ⟨rfl, rfl, Nat.le_refl _⟩
    · rcases hok with ⟨st1, count, out1⟩
      obtain ⟨ha, hb, hcn, _, _, _⟩ := batchUpdateStreams_ok_shape ids now st out
        st1 count out1 hc
      obtain ⟨hfa, hfb⟩ := batchLoop_frozen ids now st 0 out j hin
      refine ⟨?_, ?_, ?_⟩
      · rw [congrFun ha j]
        exact hfa
      · rw [hb]
        exact hfb
      · show st.nextStreamId ≤ st1.nextStreamId
        omega
  | withdraw streamId caller now =>
    simp only [step]
    rcases hc : withdrawFromStream streamId caller now st with he | hok
    · exact ⟨rfl, rfl, Nat.le_refl _⟩
    · rcases hok with ⟨st1, fee, paid⟩
      obtain ⟨hact, hne, hnext⟩ := withdrawFromStream_ok_shape streamId caller now
        st st1 fee paid hc
      have hj : j ≠ streamId := by
        intro hcontra
        rw [hcontra] at hin
        rw [hin] at hact
        simp at hact
      refine ⟨?_, ?_, ?_⟩
      · rw [hne j hj]
        exact updateStreamBalance_inactive_frozen streamId j now st hin
      · simp [hj]
      · show st.nextStreamId ≤ st1.nextStreamId
        omega
  | cancel streamId caller now =>
    simp only [step]
    rcases hc : cancelStream streamId caller now st with he | hok
    · exact ⟨rfl, rfl, Nat.le_refl _⟩
    · rcases hok with ⟨st1, fee, toR, toS⟩
      obtain ⟨hpf, hactf, hcallf⟩ := cancelStream_ok_inv streamId caller now st _ hc
      have hj : j ≠ streamId := by
        intro hcontra
        rw [hcontra] at hin
        rw [hin] at hactf
        simp at hactf
      have hceq := cancelStream_eq streamId caller now st hpf hactf hcallf
      rw [hceq] at hc
      simp only [Except.ok.injEq, Prod.mk.injEq] at hc
      obtain ⟨he1, _, _, _⟩ := hc
      refine ⟨?_, ?_, ?_⟩
      · rw [← he1]
        rw [deactivateStream_streams_ne streamId j _ hj]
        exact updateStreamBalance_inactive_frozen streamId j now st hin
      · simp [hj]
      · show st.nextStreamId ≤ st1.nextStreamId
        rw [← he1]
        have h1 := (deactivateStream_scalars streamId
          ((updateStreamBalance streamId now st).1)).1
        have h2 := (updateStreamBalance_scalars streamId now st).1
        omega
  | pause => exact ⟨rfl, rfl, Nat.le_refl _⟩
  | unpause => exact ⟨rfl, rfl, Nat.le_refl _⟩

theorem runFrom_frozen (acts : List Act) (st : ContractState) (out : Nat → Outflow)
    (j : Nat) (hin : (st.streams j).isActive = false) (hlt : j < st.nextStreamId) :
    (runFrom acts (st, out)).1.streams j = st.streams j ∧
    (runFrom acts (st, out)).2 j = out j := by
  induction acts generalizing st out with
  | nil => exact ⟨rfl, rfl⟩
  | cons a rest ih =>
    have hs := step_frozen a st out j hin hlt
    have hrw : runFrom (a :: rest) (st, out) = runFrom rest (step a (st, out)) := rfl
    rw [hrw]
    rcases hp : step a (st, out) with ⟨st2, out2⟩
    rw [hp] at hs
    have hin2 : (st2.streams j).isActive = false := by
      rw [hs.1]
      exact hin
    have hlt2 : j < st2.nextStreamId := by
      have h22 : st.nextStreamId ≤ st2.nextStreamId := hs.2.2
      omega
    obtain ⟨ha, hb⟩ := ih st2 out2 hin2 hlt2
    exact ⟨ha.trans hs.1, hb.trans hs.2.1⟩

/-- C9: once a stream has been deactivated (as happens when a settlement
crosses stopTime, even with realTimeBalance - amountWithdrawn > 0 left
unclaimed), every later withdrawFromStream and cancelStream call on it fails,
getCurrentBalance reports 0, and no sequence of further transactions changes
its record or moves any further value on its behalf — the stranded realized
balance can never be paid out to the recipient. -/
theorem inactive_stream_locked (st : ContractState) (out : Nat → Outflow) (streamId : Nat)
    (hin : (st.streams streamId).isActive = false) (hlt : streamId < st.nextStreamId) :
    (∀ caller now, ∃ e, withdrawFromStream streamId caller now st = .error e) ∧
    (∀ caller now, ∃ e, cancelStream streamId caller now st = .error e) ∧
    (∀ now, getCurrentBalance streamId now st = 0) ∧
    (∀ acts, (runFrom acts (st, out)).1.streams streamId = st.streams streamId ∧
      (runFrom acts (st, out)).2 streamId = out streamId) := by
  refine ⟨?_, ?_, ?_, ?_⟩
  · intro caller now
    unfold withdrawFromStream
    by_cases hp : st.paused
    · exact ⟨.contractPaused, by rw [if_pos hp]⟩
    · refine ⟨.notActive, ?_⟩
      rw [if_neg hp, if_pos hin]
  · intro caller now
    unfold cancelStream
    by_cases hp : st.paused
    · exact ⟨.contractPaused, by rw [if_pos hp]⟩
    · refine ⟨.notActive, ?_⟩
      rw [if_neg hp, if_pos hin]
  · intro now
    unfold getCurrentBalance
    rw [if_pos hin]
  · intro acts
    exact runFrom_frozen acts st out streamId hin hlt

theorem inactive_stream_locked_witness :
    ((((run [Act.create 1 2 3600 3600 "work" "demo" 0,
          Act.batch [1] 4000]).1).streams 1).isActive = false ∧
     1 < ((run [Act.create 1 2 3600 3600 "work" "demo" 0,
          Act.batch [1] 4000]).1).nextStreamId ∧
     0 < (((run [Act.create 1 2 3600 3600 "work" "demo" 0,
            Act.batch [1] 4000]).1).streams 1).realTimeBalance
          - (((run [Act.create 1 2 3600 3600 "work" "demo" 0,
              Act.batch [1] 4000]).1).streams 1).amountWithdrawn) ∧
    ((∀ caller now, ∃ e, withdrawFromStream 1 caller now
        ((run [Act.create 1 2 3600 3600 "work" "demo" 0, Act.batch [1] 4000]).1)
        = .error e) ∧
     (∀ caller now, ∃ e, cancelStream 1 caller now
        ((run [Act.create 1 2 3600 3600 "work" "demo" 0, Act.batch [1] 4000]).1)
        = .error e) ∧
     (∀ now, getCurrentBalance 1 now
        ((run [Act.create 1 2 3600 3600 "work" "demo" 0, Act.batch [1] 4000]).1) = 0) ∧
     (∀ acts, (runFrom acts
          ((run [Act.create 1 2 3600 3600 "work" "demo" 0, Act.batch [1] 4000]).1,
           (run [Act.create 1 2 3600 3600 "work" "demo" 0, Act.batch [1] 4000]).2)).1.streams 1
        = ((run [Act.create 1 2 3600 3600 "work" "demo" 0, Act.batch [1] 4000]).1).streams 1 ∧
      (runFrom acts
          ((run [Act.create 1 2 3600 3600 "work" "demo" 0, Act.batch [1] 4000]).1,
           (run [Act.create 1 2 3600 3600 "work" "demo" 0, Act.batch [1] 4000]).2)).2 1
        = (run [Act.create 1 2 3600 3600 "work" "demo" 0, Act.batch [1] 4000]).2 1)) :=
  ⟨⟨by decide, by decide, by decide⟩,
   inactive_stream_locked
     ((run [Act.create 1 2 3600 3600 "work" "demo" 0, Act.batch [1] 4000]).1)
     ((run [Act.create 1 2 3600 3600 "work" "demo" 0, Act.batch [1] 4000]).2)
     1 (by decide) (by decide)⟩

/-- C6 counterexample: every precondition the claim lists holds (positive
amount, valid distinct recipient, in-range duration, amount ≥ duration), yet
createStream rejects because the streamType string is empty — a require the
claim's "succeeds exactly when" list omits. -/
theorem createStream_claim_counterexample :
    (0 < (3600 : Nat) ∧ (2 : Nat) ≠ 0 ∧ (2 : Nat) ≠ 1 ∧ 0 < (3600 : Nat) ∧
      (3600 : Nat) ≤ MAX_STREAM_SECONDS ∧ (3600 : Nat) ≤ 3600) ∧
    createStream 1 2 3600 3600 "" "salary" 0 genesis = .error Err.emptyStreamType :=
  ⟨⟨by decide, by decide, by decide, by decide, by decide, by decide⟩, rfl⟩

/-- C6 (amended): in an unpaused state, createStream succeeds exactly when
totalAmount (msg.value) > 0, the recipient is nonzero and differs from the
sender, 0 < duration ≤ 365 days, totalAmount ≥ duration, and — additionally to
the claim as stated — the streamType string is nonempty; on success the stored
flow rate is at least 1.  A failure returns an error carrying no state, so it
changes nothing. -/
theorem createStream_ok_iff (sender recipient duration value : Nat) (ty d : String)
    (now : Nat) (st : ContractState) (hpause : st.paused = false) :
    ((∃ st1 newId, createStream sender recipient duration value ty d now st
        = .ok (st1, newId))
      ↔ (0 < value ∧ recipient ≠ 0 ∧ recipient ≠ sender ∧ 0 < duration ∧
         duration ≤ MAX_STREAM_SECONDS ∧ ty.length ≠ 0 ∧ duration ≤ value)) ∧
    (∀ st1 newId, createStream sender recipient duration value ty d now st
        = .ok (st1, newId) → 1 ≤ (st1.streams newId).flowRate) := by
  constructor
  · constructor
    · rintro ⟨st1, newId, heq⟩
      unfold createStream at heq
      rw [hpause] at heq
      rw [if_neg (by simp)] at heq
      by_cases h2 : value = 0
      · rw [if_pos h2] at heq; simp at heq
      · rw [if_neg h2] at heq
        by_cases h3 : recipient = 0
        · rw [if_pos h3] at heq; simp at heq
        · rw [if_neg h3] at heq
          by_cases h4 : recipient = sender
          · rw [if_pos h4] at heq; simp at heq
          · rw [if_neg h4] at heq
            by_cases h5 : duration = 0
            · rw [if_pos h5] at heq; simp at heq
            · rw [if_neg h5] at heq
              by_cases h6 : MAX_STREAM_SECONDS < duration
              · rw [if_pos h6] at heq; simp at heq
              · rw [if_neg h6] at heq
                by_cases h7 : ty.length = 0
                · rw [if_pos h7] at heq; simp at heq
                · rw [if_neg h7] at heq
                  by_cases h8 : value < duration
                  · rw [if_pos h8] at heq; simp at heq
                  · exact ⟨by omega, h3, h4, by omega, by omega, h7, by omega⟩
    · rintro ⟨hv, hr0, hrs, hd, hdm, hty, hvd⟩
      unfold createStream
      rw [hpause]
      rw [if_neg (by simp)]
      rw [if_neg (by omega)]
      rw [if_neg hr0]
      rw [if_neg hrs]
      rw [if_neg (by omega)]
      rw [if_neg (by omega)]
      rw [if_neg hty]
      rw [if_neg (by omega)]
      unfold createStreamInternal
      rw [if_neg (by
        have hpos := Nat.div_pos hvd hd
        omega)]
      exact ⟨_, _, rfl⟩
  · intro st1 newId heq
    have hint := createStream_ok_internal sender recipient duration value ty d now
      st st1 newId heq
    unfold createStreamInternal at hint
    by_cases hfr : value / duration = 0
    · rw [if_pos hfr] at hint
      simp at hint
    · rw [if_neg hfr] at hint
      simp only [Except.ok.injEq, Prod.mk.injEq] at hint
      obtain ⟨he1, he2⟩ := hint
      subst he2
      have hflow : (st1.streams st.nextStreamId).flowRate = value / duration := by
        rw [← he1]
        simp
      rw [hflow]
      omega

theorem createStream_ok_iff_witness :
    genesis.paused = false ∧
    ((∃ st1 newId, createStream 1 2 3600 3600 "work" "demo" 0 genesis = .ok (st1, newId))
      ↔ (0 < (3600 : Nat) ∧ (2 : Nat) ≠ 0 ∧ (2 : Nat) ≠ 1 ∧ 0 < (3600 : Nat) ∧
         (3600 : Nat) ≤ MAX_STREAM_SECONDS ∧ ("work" : String).length ≠ 0 ∧
         (3600 : Nat) ≤ 3600)) :=
  ⟨rfl, (createStream_ok_iff 1 2 3600 3600 "work" "demo" 0 genesis rfl).1⟩

/-- C7: in an unpaused state, batchUpdateStreams rejects — returning an error
carrying no state — exactly when the input holds more than MAX_BATCH_SIZE
(200) ids or the call lands within MIN_UPDATE_INTERVAL (1 time unit) of the
last global batch; otherwise it runs the update loop over every supplied id,
adds the number of ids that settled to totalUpdatesPerformed, sets
lastBatchUpdateTime = now, leaves every initially-inactive stream's record
untouched (inactive ids are no-ops), and processing a duplicated id twice in a
row equals processing it once. -/
theorem batchUpdate_spec (ids : List Nat) (now : Nat) (st : ContractState)
    (out : Nat → Outflow) (hpause : st.paused = false) :
    ((∃ e, batchUpdateStreams ids now st out = .error e)
      ↔ (MAX_BATCH_SIZE < ids.length
          ∨ now < st.lastBatchUpdateTime + MIN_UPDATE_INTERVAL)) ∧
    (∀ st1 count out1, batchUpdateStreams ids now st out = .ok (st1, count, out1) →
      st1.lastBatchUpdateTime = now ∧
      st1.totalUpdatesPerformed = st.totalUpdatesPerformed + count ∧
      st1.streams = (batchLoop ids now st 0 out).1.streams ∧
      count = (batchLoop ids now st 0 out).2.1 ∧
      (∀ j, (st.streams j).isActive = false → st1.streams j = st.streams j)) ∧
    (∀ streamId rest st2 count2 out2,
      batchLoop (streamId :: streamId :: rest) now st2 count2 out2
        = batchLoop (streamId :: rest) now st2 count2 out2) := by
  refine ⟨?_, ?_, ?_⟩
  · constructor
    · rintro ⟨e, heq⟩
      unfold batchUpdateStreams at heq
      rw [hpause] at heq
      rw [if_neg (by simp)] at heq
      by_cases hlarge : MAX_BATCH_SIZE < ids.length
      · exact Or.inl hlarge
      · rw [if_neg hlarge] at heq
        by_cases hfreq : now < st.lastBatchUpdateTime + MIN_UPDATE_INTERVAL
        · exact Or.inr hfreq
        · rw [if_neg hfreq] at heq
          rcases hbl : batchLoop ids now st 0 out with ⟨stL, countL, outL⟩
          rw [hbl] at heq
          simp at heq
    · intro h
      unfold batchUpdateStreams
      rw [hpause]
      rw [if_neg (by simp)]
      by_cases hlarge : MAX_BATCH_SIZE < ids.length
      · rw [if_pos hlarge]
        exact ⟨_, rfl⟩
      · rcases h with h | h
        · exact absurd h hlarge
        · rw [if_neg hlarge, if_pos h]
          exact ⟨_, rfl⟩
  · intro st1 count out1 heq
    obtain ⟨ha, _, _, hd, he, hf⟩ := batchUpdateStreams_ok_shape ids now st out
      st1 count out1 heq
    refine ⟨he, hf, ha, hd, ?_⟩
    intro j hj
    rw [congrFun ha j]
    exact (batchLoop_frozen ids now st 0 out j hj).1
  · intro streamId rest st2 count2 out2
    exact batchLoop_dup streamId rest now st2 count2 out2

theorem batchUpdate_spec_witness :
    genesis.paused = false ∧
    ((∃ e, batchUpdateStreams [1] 5 genesis (fun _ => Outflow.zero) = .error e)
      ↔ (MAX_BATCH_SIZE < ([1] : List Nat).length
          ∨ 5 < genesis.lastBatchUpdateTime + MIN_UPDATE_INTERVAL)) :=
  ⟨rfl, (batchUpdate_spec [1] 5 genesis (fun _ => Outflow.zero) rfl).1⟩

/-! Keeper bot model (scripts/keeper-bot-somnia-testnet.js) and the
profitability quantities of the claim. -/

/-- The keeper bot's per-cycle decision, from runKeeper: it reads
getActiveStreamIds and, whenever the list is nonempty, immediately submits one
batchUpdateStreams transaction carrying all the ids.  No fee price is fetched
and no revenue/cost estimate is computed anywhere in the bot source. -/
def keeperCycleTxs (activeStreamIds : List Nat) : List (List Nat) :=
  if activeStreamIds.length = 0 then [] else [activeStreamIds]

/-- Modelled from the spec: estimatedRevenue = activeCount * rewardPerStream.
No such computation appears in the keeper bot source. -/
def estimatedRevenue (activeCount rewardPerStream : Nat) : Nat :=
  activeCount * rewardPerStream

/-- Modelled from the spec: batchesNeeded = ceil(activeCount / MAX_BATCH_SIZE). -/
def batchesNeeded (activeCount : Nat) : Nat :=
  (activeCount + MAX_BATCH_SIZE - 1) / MAX_BATCH_SIZE

/-- Modelled from the spec: estimatedCost = batchesNeeded * perBatchCost *
feePrice. -/
def estimatedCost (activeCount perBatchCost feePrice : Nat) : Nat :=
  batchesNeeded activeCount * perBatchCost * feePrice

/-- The treasury agent's keeper-profitability flag
(streampay/lib/ai/treasury-agent.ts, isKeeperProfitable): reward must exceed
twice the estimated gas cost.  The flag is only reported in the agent output;
it gates no transaction. -/
def isKeeperProfitable (keeperReward estimatedGasCost : Nat) : Bool :=
  estimatedGasCost * 2 < keeperReward

/-- C5: the claim (and the repository's own README) requires the keeper agent
to submit nothing in a cycle whose estimatedRevenue does not exceed
estimatedCost; the shipped bot has no such gate.  At an active-stream count of
5, rewardPerStream 1 and per-batch cost 1 at fee price 1000, revenue (5) is
far below cost (1000), yet the bot's cycle still submits the full batch — and
even the treasury agent's (unwired) profitability flag is false here. -/
theorem keeper_submits_when_unprofitable :
    estimatedRevenue 5 1 ≤ estimatedCost 5 1 1000 ∧
    keeperCycleTxs [1, 2, 3, 4, 5] = [[1, 2, 3, 4, 5]] ∧
    isKeeperProfitable 5 1000 = false := by decide

end StreamPay
